import Mathlib

/-!
Verification of the core data structures of a Reticulum mesh-network node
(announce cache, routing path table, BLE fragmentation/reassembly, LoRa
airtime / duty-cycle / CSMA).

The Rust sources are embedded shallowly:

* `HashMap` becomes an association list (`List (k × v)`); the unspecified
  iteration order of `HashMap` is modelled by list order, and Rust's
  `Iterator::min_by_key` (which returns the first minimal element) becomes a
  left fold keeping the first strict minimum.
* `Instant` / `Duration` become `Nat` (microsecond-like ticks); every
  operation that reads the clock takes the current instant `now : Nat`
  explicitly.  `Instant::duration_since` / `saturating_duration_since`
  become truncated `Nat` subtraction.
* Machine integers become `Nat` / `Int`; wrapping arithmetic is written with
  an explicit `% 2^w`, saturating arithmetic with explicit `min` / truncated
  subtraction.
* The `f64` arithmetic of the airtime formula is modelled exactly over `ℚ`,
  with the final `as u64` cast as `Int.toNat ∘ Int.floor`.
-/

/-! ## Association-list helpers (shallow model of `HashMap`) -/

/-- Look up the value stored under the first occurrence of key `k`. -/
def lookupKey {α β : Type} [DecidableEq α] (k : α) : List (α × β) → Option β
  | [] => none
  | (k', v) :: rest => if k' = k then some v else lookupKey k rest

/-- Apply `f` to the value stored under the first occurrence of key `k`
(models `HashMap::get_mut` followed by a mutation). -/
def updateKey {α β : Type} [DecidableEq α] (k : α) (f : β → β) :
    List (α × β) → List (α × β)
  | [] => []
  | (k', v) :: rest =>
    if k' = k then (k', f v) :: rest else (k', v) :: updateKey k f rest

/-- Insert `(k, v)`, replacing the value at the first occurrence of `k`, or
appending when `k` is absent (models `HashMap::insert`). -/
def insertKey {α β : Type} [DecidableEq α] (k : α) (v : β) :
    List (α × β) → List (α × β)
  | [] => [(k, v)]
  | (k', v') :: rest =>
    if k' = k then (k', v) :: rest else (k', v') :: insertKey k v rest

/-- Remove the first occurrence of key `k` (models `HashMap::remove`). -/
def eraseKey {α β : Type} [DecidableEq α] (k : α) : List (α × β) → List (α × β)
  | [] => []
  | (k', v) :: rest => if k' = k then rest else (k', v) :: eraseKey k rest

/-- Left fold keeping the first strict minimum of `f` (helper for
`minKeyBy`). -/
def minKeyByGo {α β : Type} (f : β → Nat) (bk : α) (bv : Nat) :
    List (α × β) → α
  | [] => bk
  | (k, v) :: rest =>
    if f v < bv then minKeyByGo f k (f v) rest else minKeyByGo f bk bv rest

/-- Key of the entry minimising `f`, ties broken in favour of the earliest
entry (models Rust's `Iterator::min_by_key`, which returns the first of
several equally minimal elements). -/
def minKeyBy {α β : Type} (f : β → Nat) : List (α × β) → Option α
  | [] => none
  | (k, v) :: rest => some (minKeyByGo f k (f v) rest)

/-! ## Announce cache (`src/announce/cache.rs`) -/

/-- `AnnounceHash`: 16 opaque bytes identifying an announce. -/
abbrev AnnounceHash : Type := List Nat

/-- Configuration of the announce cache (`ttl` in clock ticks). -/
structure AnnounceCacheConfig where
  max_entries : Nat
  ttl : Nat
deriving DecidableEq

/-- `AnnounceCacheConfig::validate`: `max_entries > 0` and `ttl > 0`. -/
def AnnounceCacheConfig.validateOk (c : AnnounceCacheConfig) : Bool :=
  0 < c.max_entries && 0 < c.ttl

/-- Entry stored in the announce cache. -/
structure AnnounceEntry where
  first_seen : Nat
  last_accessed : Nat
  hops : Nat
  seen_count : Nat
deriving DecidableEq

/-- `AnnounceEntry::new`. -/
def AnnounceEntry.new (hops now : Nat) : AnnounceEntry :=
  { first_seen := now, last_accessed := now, hops := hops, seen_count := 1 }

/-- `u32::saturating_add` on `seen_count`. -/
def satAddU32 (a b : Nat) : Nat := min (a + b) (2 ^ 32 - 1)

/-- Result of `AnnounceCache::insert`. -/
inductive InsertResult where
  | New : InsertResult
  | Duplicate : InsertResult
  | BetterPath (old_hops new_hops : Nat) : InsertResult
deriving DecidableEq

/-- The announce cache: a bounded map from hash to entry. -/
structure AnnounceCache where
  config : AnnounceCacheConfig
  entries : List (AnnounceHash × AnnounceEntry)

/-- `AnnounceCache::new` on a validated configuration. -/
def AnnounceCache.new (config : AnnounceCacheConfig) : AnnounceCache :=
  { config := config, entries := [] }

/-- `AnnounceCache::len`. -/
def AnnounceCache.len (c : AnnounceCache) : Nat := c.entries.length

/-- `AnnounceCache::contains`. -/
def AnnounceCache.containsHash (c : AnnounceCache) (hash : AnnounceHash) : Bool :=
  (lookupKey hash c.entries).isSome

/-- `AnnounceCache::peek` (no access-time update). -/
def AnnounceCache.peek (c : AnnounceCache) (hash : AnnounceHash) :
    Option AnnounceEntry :=
  lookupKey hash c.entries

/-- `AnnounceCache::cleanup_expired`: retain entries with
`now - first_seen < ttl` (the code's `duration_since` is truncated `Nat`
subtraction here). -/
def AnnounceCache.cleanup_expired (c : AnnounceCache) (now : Nat) : AnnounceCache :=
  { c with entries := c.entries.filter fun e => now - e.2.first_seen < c.config.ttl }

/-- `AnnounceCache::evict_lru`: drop the entry with the smallest
`last_accessed`. -/
def AnnounceCache.evict_lru (c : AnnounceCache) : AnnounceCache :=
  match minKeyBy (fun e => e.last_accessed) c.entries with
  | none => c
  | some k => { c with entries := eraseKey k c.entries }

/-- `AnnounceCache::evict_expired_or_lru`: drop expired entries; if none
were expired (and the cache is non-empty), evict the LRU entry. -/
def AnnounceCache.evict_expired_or_lru (c : AnnounceCache) (now : Nat) :
    AnnounceCache :=
  let c' := c.cleanup_expired now
  if c'.entries.length = c.entries.length && !c'.entries.isEmpty then
    c'.evict_lru
  else
    c'

/-- `AnnounceCache::insert`. -/
def AnnounceCache.insert (c : AnnounceCache) (now : Nat) (hash : AnnounceHash)
    (hops : Nat) : InsertResult × AnnounceCache :=
  let c1 := if c.config.max_entries ≤ c.entries.length
    then c.evict_expired_or_lru now else c
  match lookupKey hash c1.entries with
  | some entry =>
    let updated :=
      { entry with
        last_accessed := now
        seen_count := satAddU32 entry.seen_count 1
        hops := if hops < entry.hops then hops else entry.hops }
    let c2 := { c1 with entries := updateKey hash (fun _ => updated) c1.entries }
    if hops < entry.hops then
      (InsertResult.BetterPath entry.hops hops, c2)
    else
      (InsertResult.Duplicate, c2)
  | none =>
    let c2 := if c1.config.max_entries ≤ c1.entries.length then c1.evict_lru else c1
    (InsertResult.New,
      { c2 with entries := c2.entries ++ [(hash, AnnounceEntry.new hops now)] })

/-- `AnnounceCache::get` (updates `last_accessed`). -/
def AnnounceCache.getEntry (c : AnnounceCache) (now : Nat) (hash : AnnounceHash) :
    Option AnnounceEntry × AnnounceCache :=
  match lookupKey hash c.entries with
  | some entry =>
    let updated := { entry with last_accessed := now }
    (some updated, { c with entries := updateKey hash (fun _ => updated) c.entries })
  | none => (none, c)

/-- `AnnounceCache::remove`. -/
def AnnounceCache.removeHash (c : AnnounceCache) (hash : AnnounceHash) :
    AnnounceCache :=
  { c with entries := eraseKey hash c.entries }

/-- `AnnounceCache::clear`. -/
def AnnounceCache.clear (c : AnnounceCache) : AnnounceCache :=
  { c with entries := [] }

/-- Cache states reachable from `AnnounceCache::new` on a validated
configuration by any sequence of operations. -/
inductive AnnounceCacheReachable : AnnounceCache → Prop where
  | new (config : AnnounceCacheConfig) (h : config.validateOk = true) :
      AnnounceCacheReachable (AnnounceCache.new config)
  | insert (c : AnnounceCache) (now : Nat) (hash : AnnounceHash) (hops : Nat)
      (h : AnnounceCacheReachable c) :
      AnnounceCacheReachable (c.insert now hash hops).2
  | get (c : AnnounceCache) (now : Nat) (hash : AnnounceHash)
      (h : AnnounceCacheReachable c) :
      AnnounceCacheReachable (c.getEntry now hash).2
  | remove (c : AnnounceCache) (hash : AnnounceHash)
      (h : AnnounceCacheReachable c) :
      AnnounceCacheReachable (c.removeHash hash)
  | clear (c : AnnounceCache) (h : AnnounceCacheReachable c) :
      AnnounceCacheReachable c.clear
  | cleanup (c : AnnounceCache) (now : Nat) (h : AnnounceCacheReachable c) :
      AnnounceCacheReachable (c.cleanup_expired now)

/-! ## BLE fragmentation (`src/ble/fragmentation.rs`) -/

/-- A BLE device address: 6 opaque bytes. -/
abbrev BleAddress : Type := List Nat

/-- `HEADER_SIZE`. -/
def HEADER_SIZE : Nat := 2

/-- `FLAG_FIRST_FRAGMENT`. -/
def FLAG_FIRST_FRAGMENT : Nat := 1

/-- `FLAG_MORE_FRAGMENTS`. -/
def FLAG_MORE_FRAGMENTS : Nat := 2

/-- `MAX_SEQUENCE_DISTANCE`. -/
def MAX_SEQUENCE_DISTANCE : Nat := 128

/-- A single fragment (payload bytes are opaque `Nat`s). -/
structure Fragment where
  sequence : Nat
  flags : Nat
  payload : List Nat
deriving DecidableEq

/-- `Fragment::is_first`: bit 0 of `flags`. -/
def Fragment.is_first (f : Fragment) : Bool := f.flags % 2 = 1

/-- `Fragment::has_more`: bit 1 of `flags`. -/
def Fragment.has_more (f : Fragment) : Bool := f.flags / 2 % 2 = 1

/-- `Fragment::has_valid_flags`: no bits other than the two defined ones
(`flags & !0x03 == 0` on a `u8`). -/
def Fragment.has_valid_flags (f : Fragment) : Bool := f.flags / 4 = 0 && f.flags < 256

/-- Fragmentation / reassembly errors. -/
inductive FragmentError where
  | TooShort
  | MtuTooSmall
  | EmptyPacket
  | BufferTooSmall
  | MissingFragment (seq : Nat)
  | InvalidFlags
deriving DecidableEq

/-- The fragmenter: MTU plus the next sequence number to use. -/
structure Fragmenter where
  mtu : Nat
  next_sequence : Nat
deriving DecidableEq

/-- `Fragmenter::try_new`: reject `mtu ≤ HEADER_SIZE`. -/
def Fragmenter.try_new (mtu : Nat) : Except FragmentError Fragmenter :=
  if mtu ≤ HEADER_SIZE then Except.error FragmentError.MtuTooSmall
  else Except.ok { mtu := mtu, next_sequence := 0 }

/-- `Fragmenter::max_payload`. -/
def Fragmenter.max_payload (f : Fragmenter) : Nat := f.mtu - HEADER_SIZE

/-- Loop body of `Fragmenter::fragment`: chunk the remaining bytes into
payloads of at most `mp` bytes, assigning flags and consecutive (mod 256)
sequence numbers.  The recursion consumes the head byte explicitly, so it is
faithful to the source exactly when `mp ≥ 1` — which `try_new` guarantees
(`mtu ≥ 3`). -/
def fragmentGo (mp : Nat) (seq : Nat) (first : Bool) : List Nat → List Fragment
  | [] => []
  | b :: bs =>
    let rest := b :: bs
    let payload := b :: bs.take (mp - 1)
    let has_more := decide (mp < rest.length)
    let flags := (if first then FLAG_FIRST_FRAGMENT else 0) +
      (if has_more then FLAG_MORE_FRAGMENTS else 0)
    Fragment.mk seq flags payload ::
      fragmentGo mp ((seq + 1) % 256) false (bs.drop (mp - 1))
termination_by l => l.length
decreasing_by
  simp only [List.length_drop, List.length_cons]
  omega

/-- `Fragmenter::fragment`: reject the empty packet, otherwise chunk;
`next_sequence` advances by the number of fragments produced (mod 256). -/
def Fragmenter.fragment (f : Fragmenter) (packet : List Nat) :
    Except FragmentError (List Fragment × Fragmenter) :=
  if packet.isEmpty then Except.error FragmentError.EmptyPacket
  else
    let frs := fragmentGo f.max_payload f.next_sequence true packet
    Except.ok (frs, { f with next_sequence := (f.next_sequence + frs.length) % 256 })

/-- Key of a pending reassembly: source address plus first sequence. -/
structure ReassemblyKey where
  source : BleAddress
  first_sequence : Nat
deriving DecidableEq

/-- A packet being reassembled. -/
structure PendingPacket where
  fragments : List (Nat × List Nat)
  first_sequence : Nat
  last_sequence : Option Nat
  started : Nat
deriving DecidableEq

/-- `PendingPacket::new` (the `started` timestamp is the current instant). -/
def PendingPacket.new (first_sequence now : Nat) : PendingPacket :=
  { fragments := [], first_sequence := first_sequence,
    last_sequence := none, started := now }

/-- `PendingPacket::is_complete`: the expected count is
`last.wrapping_sub(first).wrapping_add(1)` on `u8`. -/
def PendingPacket.is_complete (p : PendingPacket) : Bool :=
  match p.last_sequence with
  | none => false
  | some last =>
    p.fragments.length = ((last + 256 - p.first_sequence) % 256 + 1) % 256

/-- The assembly walk: starting at `seq`, look up `steps` consecutive
(wrapping `u8`) sequences and concatenate their payloads, failing on the
first missing one. -/
def assembleGo (frags : List (Nat × List Nat)) (seq : Nat) : Nat → Option (List Nat)
  | 0 => some []
  | steps + 1 =>
    match lookupKey seq frags with
    | none => none
    | some pl => (assembleGo frags ((seq + 1) % 256) steps).map (pl ++ ·)

/-- `PendingPacket::assemble`: the source walks `seq` from `first_sequence`
with wrapping increment until it reaches `last_sequence`, concatenating the
payload found at each step and failing on the first missing one — i.e. it
takes exactly `(last − first) mod 256 + 1` steps of `assembleGo`. -/
def PendingPacket.assemble (p : PendingPacket) : Option (List Nat) :=
  match p.last_sequence with
  | none => none
  | some last =>
    let d := (last + 256 - p.first_sequence) % 256
    assembleGo p.fragments p.first_sequence (d + 1)

/-- The reassembler. -/
structure Reassembler where
  pending : List (ReassemblyKey × PendingPacket)
  timeout : Nat
  max_pending : Nat
  max_fragments_per_packet : Nat
deriving DecidableEq

/-- `Reassembler::with_limits`. -/
def Reassembler.with_limits (timeout max_pending max_fragments_per_packet : Nat) :
    Reassembler :=
  { pending := [], timeout := timeout, max_pending := max_pending,
    max_fragments_per_packet := max_fragments_per_packet }

/-- `Reassembler::new`: default limits 8 pending / 32 fragments. -/
def Reassembler.newDefault (timeout : Nat) : Reassembler :=
  Reassembler.with_limits timeout 8 32

/-- `Reassembler::cleanup_expired`: retain entries whose age
(`saturating_duration_since`) is below the timeout. -/
def Reassembler.cleanup_expired (r : Reassembler) (now : Nat) : Reassembler :=
  { r with pending := r.pending.filter fun e => now - e.2.started < r.timeout }

/-- `Reassembler::find_key_for_fragment`: scan pending entries from this
source whose forward sequence distance lies in `(0, 128)`. -/
def Reassembler.find_key_for_fragment (r : Reassembler) (source : BleAddress)
    (f : Fragment) : Option ReassemblyKey :=
  r.pending.findSome? fun e =>
    if e.1.source = source then
      let seq_diff := (f.sequence + 256 - e.1.first_sequence) % 256
      if 0 < seq_diff && seq_diff < MAX_SEQUENCE_DISTANCE then some e.1 else none
    else none

/-- `Reassembler::find_oldest_pending`. -/
def Reassembler.find_oldest_pending (r : Reassembler) : Option ReassemblyKey :=
  minKeyBy (fun p => p.started) r.pending

/-- `Reassembler::add_fragment`.  The source `expect`s that `assemble`
succeeds whenever `is_complete` holds; the unreachable failure branch is
modelled as returning `none` while still removing the key. -/
def Reassembler.add_fragment (r : Reassembler) (now : Nat) (source : BleAddress)
    (f : Fragment) : Option (List Nat) × Reassembler :=
  if !f.has_valid_flags then (none, r)
  else
    let r1 := r.cleanup_expired now
    if f.is_first then
      if !f.has_more then (some f.payload, r1)
      else
        let key : ReassemblyKey := { source := source, first_sequence := f.sequence }
        let r2 := if r1.max_pending ≤ r1.pending.length then
            match r1.find_oldest_pending with
            | some oldest => { r1 with pending := eraseKey oldest r1.pending }
            | none => r1
          else r1
        if (lookupKey key r2.pending).isSome then (none, r2)
        else
          let pp : PendingPacket :=
            { fragments := insertKey f.sequence f.payload [],
              first_sequence := f.sequence, last_sequence := none,
              started := now }
          (none, { r2 with pending := insertKey key pp r2.pending })
    else
      match r1.find_key_for_fragment source f with
      | none => (none, r1)
      | some key =>
        match lookupKey key r1.pending with
        | none => (none, r1)
        | some pp =>
          if r1.max_fragments_per_packet ≤ pp.fragments.length then
            (none, { r1 with pending := eraseKey key r1.pending })
          else
            let pp1 := { pp with
              fragments := insertKey f.sequence f.payload pp.fragments
              last_sequence := if f.has_more then pp.last_sequence else some f.sequence }
            if pp1.is_complete then
              (pp1.assemble, { r1 with pending := eraseKey key r1.pending })
            else
              (none, { r1 with pending := updateKey key (fun _ => pp1) r1.pending })

/-- `Reassembler::pending_count`. -/
def Reassembler.pending_count (r : Reassembler) : Nat := r.pending.length

/-- `Reassembler::clear`. -/
def Reassembler.clearPending (r : Reassembler) : Reassembler :=
  { r with pending := [] }

/-- Feed a list of fragments (one fixed source, one fixed instant) to the
reassembler, collecting each call's result. -/
def Reassembler.addAll (r : Reassembler) (now : Nat) (source : BleAddress) :
    List Fragment → List (Option (List Nat)) × Reassembler
  | [] => ([], r)
  | f :: fs =>
    let step := r.add_fragment now source f
    let rest := step.2.addAll now source fs
    (step.1 :: rest.1, rest.2)

/-- Reassembler states reachable from `with_limits` by any sequence of
`add_fragment` / `clear` calls. -/
inductive ReassemblerReachable : Reassembler → Prop where
  | new (timeout max_pending max_fragments : Nat) (h : 1 ≤ max_pending) :
      ReassemblerReachable (Reassembler.with_limits timeout max_pending max_fragments)
  | add (r : Reassembler) (now : Nat) (source : BleAddress) (f : Fragment)
      (h : ReassemblerReachable r) :
      ReassemblerReachable (r.add_fragment now source f).2
  | clear (r : Reassembler) (h : ReassemblerReachable r) :
      ReassemblerReachable r.clearPending

/-! ## Path table (`src/routing/path_table.rs`) -/

/-- Destination hash (16 opaque bytes). -/
abbrev DestinationHash : Type := List Nat

/-- Interface type of a path. -/
inductive InterfaceType where
  | LoRa
  | Ble
  | Wifi
deriving DecidableEq

/-- `i16` wraparound (release-mode semantics of `rssi + 120` on `i16`). -/
def wrapI16 (x : Int) : Int := (x + 32768) % 65536 - 32768

/-- Routing metrics of a path. -/
structure RoutingMetrics where
  hops : Nat
  rssi_dbm : Option Int
  validated : Bool
deriving DecidableEq

/-- `RoutingMetrics::score`: `(255 − hops) * 1000 + normalized_rssi +
(validated ? 500 : 0)`, where `normalized_rssi = rssi_dbm + 120` (an `i16`
addition) if known, else `0`. -/
def RoutingMetrics.score (m : RoutingMetrics) : Int :=
  (255 - (m.hops : Int)) * 1000 +
    (match m.rssi_dbm with
     | some rssi => wrapI16 (rssi + 120)
     | none => 0) +
    (if m.validated then 500 else 0)

/-- Path-table configuration (`path_ttl` in clock ticks). -/
structure PathTableConfig where
  max_destinations : Nat
  max_paths_per_dest : Nat
  path_ttl : Nat
deriving DecidableEq

/-- `PathTableConfig::validate`: all three fields positive. -/
def PathTableConfig.validateOk (c : PathTableConfig) : Bool :=
  0 < c.max_destinations && 0 < c.max_paths_per_dest && 0 < c.path_ttl

/-- A single path entry. -/
structure PathEntry where
  interface : InterfaceType
  next_hop : Option (List Nat)
  metrics : RoutingMetrics
  learned_at : Nat
  last_refreshed : Nat
deriving DecidableEq

/-- `PathEntry::new`. -/
def PathEntry.new (interface : InterfaceType) (next_hop : Option (List Nat))
    (metrics : RoutingMetrics) (now : Nat) : PathEntry :=
  { interface := interface, next_hop := next_hop, metrics := metrics,
    learned_at := now, last_refreshed := now }

/-- `PathEntry::is_expired`: `elapsed > ttl`. -/
def PathEntry.is_expired (p : PathEntry) (ttl now : Nat) : Bool :=
  ttl < now - p.last_refreshed

/-- The path table. -/
structure PathTable where
  config : PathTableConfig
  paths : List (DestinationHash × List PathEntry)

/-- `PathTable::new` on a validated configuration. -/
def PathTable.new (config : PathTableConfig) : PathTable :=
  { config := config, paths := [] }

/-- The same-interface scan inside `add_path`: update the first entry with
this interface (replace on `score ≥ existing.score`, else only refresh),
returning `none` when no entry has this interface. -/
def updateSameInterface (now : Nat) (interface : InterfaceType)
    (next_hop : Option (List Nat)) (metrics : RoutingMetrics) :
    List PathEntry → Option (Bool × List PathEntry)
  | [] => none
  | p :: rest =>
    if p.interface = interface then
      if p.metrics.score ≤ metrics.score then
        let p1 := { p with next_hop := next_hop, metrics := metrics, last_refreshed := now }
        some (true, p1 :: rest)
      else
        some (false, { p with last_refreshed := now } :: rest)
    else
      (updateSameInterface now interface next_hop metrics rest).map
        fun r => (r.1, p :: r.2)

/-- Index of the first worst-scoring entry (models
`iter().enumerate().min_by_key(score)`). -/
def worstIdxGo (bi : Nat) (bs : Int) (i : Nat) : List PathEntry → Nat
  | [] => bi
  | p :: rest =>
    if p.metrics.score < bs then worstIdxGo i p.metrics.score (i + 1) rest
    else worstIdxGo bi bs (i + 1) rest

/-- Index of the worst-scoring entry of a non-empty list. -/
def worstIdx : List PathEntry → Option Nat
  | [] => none
  | p :: rest => some (worstIdxGo 0 p.metrics.score 1 rest)

/-- `PathTable::add_path`.  `entry(destination).or_default()` materialises an
empty inner vector for a previously unknown destination, with no check
against `max_destinations`. -/
def PathTable.add_path (t : PathTable) (now : Nat) (destination : DestinationHash)
    (interface : InterfaceType) (next_hop : Option (List Nat))
    (metrics : RoutingMetrics) : Bool × PathTable :=
  let l := (lookupKey destination t.paths).getD []
  match updateSameInterface now interface next_hop metrics l with
  | some r => (r.1, { t with paths := insertKey destination r.2 t.paths })
  | none =>
    if l.length < t.config.max_paths_per_dest then
      let l1 := l ++ [PathEntry.new interface next_hop metrics now]
      (true, { t with paths := insertKey destination l1 t.paths })
    else
      match worstIdx l with
      | some wi =>
        match l.get? wi with
        | some worst =>
          if worst.metrics.score < metrics.score then
            let l1 := l.set wi (PathEntry.new interface next_hop metrics now)
            (true, { t with paths := insertKey destination l1 t.paths })
          else
            (false, { t with paths := insertKey destination l t.paths })
        | none => (false, { t with paths := insertKey destination l t.paths })
      | none => (false, { t with paths := insertKey destination l t.paths })

/-- `PathTable::destination_count`. -/
def PathTable.destination_count (t : PathTable) : Nat := t.paths.length

/-! ## LoRa airtime (`src/lora/airtime.rs`) -/

/-- LoRa modulation parameters. -/
structure LoRaParams where
  spreading_factor : Nat
  bandwidth_hz : Nat
  coding_rate : Nat
  preamble_symbols : Nat
  explicit_header : Bool
  crc_enabled : Bool
deriving DecidableEq

/-- The Reticulum/RNode default parameters. -/
def LoRaParams.defaultParams : LoRaParams :=
  { spreading_factor := 7, bandwidth_hz := 125000, coding_rate := 5,
    preamble_symbols := 8, explicit_header := true, crc_enabled := true }

/-- `LoRaParams::symbol_duration_us` (integer arithmetic in the source:
`(1u64 << sf) * 1_000_000 / bw`, `0` when `bw = 0`). -/
def LoRaParams.symbol_duration_us (p : LoRaParams) : Nat :=
  if p.bandwidth_hz = 0 then 0
  else 2 ^ p.spreading_factor * 1000000 / p.bandwidth_hz

/-- `LoRaParams::low_data_rate_optimize`: symbol time above 16 ms. -/
def LoRaParams.low_data_rate_optimize (p : LoRaParams) : Bool :=
  16000 < p.symbol_duration_us

/-- `calculate_airtime_us`, with the source's `f64` arithmetic modelled
exactly over `ℚ` and the final `as u64` cast as the floor (the value is
non-negative). -/
def calculate_airtime_us (payload_bytes : Nat) (p : LoRaParams) : Nat :=
  if p.bandwidth_hz = 0 then 0
  else
    let sf : ℚ := p.spreading_factor
    let bw : ℚ := p.bandwidth_hz
    let t_sym_us : ℚ := 2 ^ p.spreading_factor / bw * 1000000
    let t_preamble_us : ℚ := ((p.preamble_symbols : ℚ) + 17/4) * t_sym_us
    let de : ℚ := if p.low_data_rate_optimize then 1 else 0
    let hdr : ℚ := if p.explicit_header then 0 else 1
    let crc_bits : ℚ := if p.crc_enabled then 16 else 0
    let numer : ℚ := 8 * (payload_bytes : ℚ) - 4 * sf + 28 + crc_bits - 20 * hdr
    let denom : ℚ := 4 * (sf - 2 * de)
    let payload_symbols : ℚ :=
      if 0 < denom then 8 + (max ⌈numer / denom⌉ 0 : ℤ) * (p.coding_rate : ℚ)
      else 8
    let t_payload_us : ℚ := payload_symbols * t_sym_us
    (⌊t_preamble_us + t_payload_us⌋ : ℤ).toNat

/-! ## Duty-cycle limiter (`src/lora/duty_cycle.rs`) -/

/-- Token-bucket duty-cycle limiter (all times in microseconds). -/
structure DutyCycleLimiter where
  budget_us : Nat
  remaining_us : Nat
  last_refill : Nat
  window_us : Nat
deriving DecidableEq

/-- `DutyCycleLimiter::new`, with the `f32`-derived budget
(`window_us * percent / 100`) abstracted to an arbitrary `u64` value: the
bucket starts full. -/
def DutyCycleLimiter.newWithBudget (budget_us window_us now : Nat) :
    DutyCycleLimiter :=
  { budget_us := budget_us, remaining_us := budget_us, last_refill := now,
    window_us := window_us }

/-- `DutyCycleLimiter::refill`: add `budget * elapsed / window` (the `u128`
quotient truncated to `u64`), capped at `budget_us`; the `u64` addition
wraps in release mode. -/
def DutyCycleLimiter.refill (s : DutyCycleLimiter) (now : Nat) :
    DutyCycleLimiter :=
  if s.window_us = 0 then s
  else
    let elapsed := now - s.last_refill
    let refill_amount := s.budget_us * elapsed / s.window_us % 2 ^ 64
    if 0 < refill_amount then
      { s with
        remaining_us := min ((s.remaining_us + refill_amount) % 2 ^ 64) s.budget_us
        last_refill := now }
    else s

/-- `DutyCycleLimiter::try_consume`: refill, then debit on success. -/
def DutyCycleLimiter.try_consume (s : DutyCycleLimiter) (now airtime_us : Nat) :
    Bool × DutyCycleLimiter :=
  let s1 := s.refill now
  if airtime_us ≤ s1.remaining_us then
    (true, { s1 with remaining_us := s1.remaining_us - airtime_us })
  else
    (false, s1)

/-- Limiter states reachable by any sequence of `try_consume` / `remaining` /
`remaining_percent` calls (each of which refills) from a freshly constructed
bucket. -/
inductive DutyCycleReachable : DutyCycleLimiter → Prop where
  | new (budget_us window_us now : Nat) :
      DutyCycleReachable (DutyCycleLimiter.newWithBudget budget_us window_us now)
  | consume (s : DutyCycleLimiter) (now airtime_us : Nat)
      (h : DutyCycleReachable s) :
      DutyCycleReachable (s.try_consume now airtime_us).2
  | refill (s : DutyCycleLimiter) (now : Nat) (h : DutyCycleReachable s) :
      DutyCycleReachable (s.refill now)

/-! ## CSMA/CA (`src/lora/csma.rs`) -/

/-- CSMA configuration. -/
structure CsmaConfig where
  rssi_threshold_dbm : Int
  max_retries : Nat
  min_backoff_ms : Nat
  max_backoff_ms : Nat
deriving DecidableEq

/-- `CsmaConfig::validate`. -/
def CsmaConfig.validateOk (c : CsmaConfig) : Bool :=
  0 < c.min_backoff_ms && c.min_backoff_ms ≤ c.max_backoff_ms &&
    0 < c.max_retries && c.max_retries ≤ 20 &&
    c.rssi_threshold_dbm ≤ -40 && -140 ≤ c.rssi_threshold_dbm

/-- Result of a CSMA channel-access attempt. -/
inductive CsmaResult where
  | Transmit
  | Wait (ms : Nat)
  | GiveUp
deriving DecidableEq

/-- CSMA state machine. -/
structure Csma where
  config : CsmaConfig
  retries : Nat
  rng_state : Nat
deriving DecidableEq

/-- `Csma::new` (fixed non-zero seed). -/
def Csma.new (config : CsmaConfig) : Csma :=
  { config := config, retries := 0, rng_state := 0x12345678 }

/-- `Csma::seed` (zero remapped to one). -/
def Csma.seed (c : Csma) (s : Nat) : Csma :=
  { c with rng_state := if s = 0 then 1 else s }

/-- `Csma::next_random`: one LCG step on `u32`. -/
def Csma.next_random (c : Csma) : Nat × Csma :=
  let st := (c.rng_state * 1664525 + 1013904223) % 2 ^ 32
  (st, { c with rng_state := st })

/-- `Csma::is_channel_clear`. -/
def Csma.is_channel_clear (c : Csma) (rssi_dbm : Int) : Bool :=
  rssi_dbm ≤ c.config.rssi_threshold_dbm

/-- `Csma::calculate_backoff`: window
`min(min_backoff ·saturating 2^(min(retries+1,10)), max_backoff)`, then a
uniform pick in `[min_backoff, window)` (or `min_backoff` when the range is
empty). -/
def Csma.calculate_backoff (c : Csma) : Nat × Csma :=
  let window := min (min (c.config.min_backoff_ms * 2 ^ min (c.retries + 1) 10)
    (2 ^ 32 - 1)) c.config.max_backoff_ms
  let range := window - c.config.min_backoff_ms
  if range = 0 then (c.config.min_backoff_ms, c)
  else
    let step := c.next_random
    (c.config.min_backoff_ms + step.1 % range, step.2)

/-- `Csma::try_access`. -/
def Csma.try_access (c : Csma) (rssi_dbm : Int) : CsmaResult × Csma :=
  if c.is_channel_clear rssi_dbm then (CsmaResult.Transmit, c)
  else if c.config.max_retries ≤ c.retries then (CsmaResult.GiveUp, c)
  else
    let step := c.calculate_backoff
    (CsmaResult.Wait step.1, { step.2 with retries := step.2.retries + 1 })

/-- `Csma::reset`. -/
def Csma.reset (c : Csma) : Csma := { c with retries := 0 }

/-- CSMA states reachable from `Csma::new` on a validated configuration by
any sequence of `try_access` / `reset` / `seed` calls. -/
inductive CsmaReachable : Csma → Prop where
  | new (config : CsmaConfig) (h : config.validateOk = true) :
      CsmaReachable (Csma.new config)
  | access (c : Csma) (rssi_dbm : Int) (h : CsmaReachable c) :
      CsmaReachable (c.try_access rssi_dbm).2
  | reset (c : Csma) (h : CsmaReachable c) : CsmaReachable c.reset
  | seed (c : Csma) (s : Nat) (h : CsmaReachable c) : CsmaReachable (c.seed s)

/-! ## Lemmas about the association-list helpers -/

theorem lookupKey_updateKey_self {α β : Type} [DecidableEq α] (k : α) (f : β → β)
    (l : List (α × β)) : lookupKey k (updateKey k f l) = (lookupKey k l).map f := by
  induction l with
  | nil => simp [lookupKey, updateKey]
  | cons hd tl ih =>
    obtain ⟨k', v⟩ := hd
    by_cases h : k' = k
    · simp [lookupKey, updateKey, h]
    · simp [lookupKey, updateKey, h, ih]

theorem length_updateKey {α β : Type} [DecidableEq α] (k : α) (f : β → β)
    (l : List (α × β)) : (updateKey k f l).length = l.length := by
  induction l with
  | nil => rfl
  | cons hd tl ih =>
    obtain ⟨k', v⟩ := hd
    by_cases h : k' = k <;> simp [updateKey, h, ih]

theorem length_eraseKey_le {α β : Type} [DecidableEq α] (k : α)
    (l : List (α × β)) : (eraseKey k l).length ≤ l.length := by
  induction l with
  | nil => simp [eraseKey]
  | cons hd tl ih =>
    obtain ⟨k', v⟩ := hd
    by_cases h : k' = k
    · simp only [eraseKey, if_pos h, List.length_cons]
      omega
    · simp only [eraseKey, if_neg h, List.length_cons]
      omega

theorem length_eraseKey_of_mem {α β : Type} [DecidableEq α] (k : α)
    (l : List (α × β)) (h : k ∈ l.map Prod.fst) :
    (eraseKey k l).length + 1 = l.length := by
  induction l with
  | nil => simp at h
  | cons hd tl ih =>
    obtain ⟨k', v⟩ := hd
    by_cases hk : k' = k
    · simp [eraseKey, hk]
    · simp only [List.map_cons, List.mem_cons] at h
      rcases h with h | h
    
      · exact absurd h.symm hk
      · simp [eraseKey, hk, ih h]

theorem lookupKey_eq_none_iff {α β : Type} [DecidableEq α] (k : α)
    (l : List (α × β)) : lookupKey k l = none ↔ k ∉ l.map Prod.fst := by
  induction l with
  | nil => simp [lookupKey]
  | cons hd tl ih =>
    obtain ⟨k', v⟩ := hd
    by_cases h : k' = k
    · simp [lookupKey, h]
    · simp [lookupKey, h, ih, Ne.symm h]

theorem lookupKey_filter_none {α β : Type} [DecidableEq α] (k : α)
    (p : α × β → Bool) (l : List (α × β)) (h : lookupKey k l = none) :
    lookupKey k (l.filter p) = none := by
  rw [lookupKey_eq_none_iff] at h ⊢
  intro hmem
  apply h
  simp only [List.mem_map] at hmem ⊢
  obtain ⟨x, hx, hxk⟩ := hmem
  exact ⟨x, (List.mem_filter.mp hx).1, hxk⟩

theorem lookupKey_eraseKey_none {α β : Type} [DecidableEq α] (k k' : α)
    (l : List (α × β)) (h : lookupKey k l = none) :
    lookupKey k (eraseKey k' l) = none := by
  induction l with
  | nil => simp [eraseKey, lookupKey]
  | cons hd tl ih =>
    obtain ⟨ka, v⟩ := hd
    simp only [lookupKey] at h
    by_cases hk : ka = k
    · simp [hk] at h
    · simp only [if_neg hk] at h
      by_cases hk' : ka = k'
      · simpa [eraseKey, hk'] using h
      · simpa [eraseKey, hk', lookupKey, hk] using ih h

theorem lookupKey_append_right {α β : Type} [DecidableEq α] (k : α) (v : β)
    (l : List (α × β)) (h : lookupKey k l = none) :
    lookupKey k (l ++ [(k, v)]) = some v := by
  induction l with
  | nil => simp [lookupKey]
  | cons hd tl ih =>
    obtain ⟨ka, va⟩ := hd
    simp only [lookupKey] at h
    by_cases hk : ka = k
    · simp [hk] at h
    · simp only [if_neg hk] at h
      simpa [lookupKey, hk] using ih h

theorem insertKey_of_absent {α β : Type} [DecidableEq α] (k : α) (v : β)
    (l : List (α × β)) (h : lookupKey k l = none) :
    insertKey k v l = l ++ [(k, v)] := by
  induction l with
  | nil => simp [insertKey]
  | cons hd tl ih =>
    obtain ⟨ka, va⟩ := hd
    simp only [lookupKey] at h
    by_cases hk : ka = k
    · simp [hk] at h
    · simp only [if_neg hk] at h
      simp [insertKey, hk, ih h]

theorem minKeyByGo_mem {α β : Type} (f : β → Nat) (bk : α) (bv : Nat)
    (l : List (α × β)) : minKeyByGo f bk bv l = bk ∨
      minKeyByGo f bk bv l ∈ l.map Prod.fst := by
  induction l generalizing bk bv with
  | nil => simp [minKeyByGo]
  | cons hd tl ih =>
    obtain ⟨k, v⟩ := hd
    simp only [minKeyByGo]
    by_cases h : f v < bv
    · simp only [if_pos h]
      rcases ih k (f v) with h' | h'
      · right
        simp [h']
      · right
        simp [h']
    · simp only [if_neg h]
      rcases ih bk bv with h' | h'
      · left
        exact h'
      · right
        simp [h']

theorem minKeyBy_mem {α β : Type} (f : β → Nat) (l : List (α × β)) (k : α)
    (h : minKeyBy f l = some k) : k ∈ l.map Prod.fst := by
  cases l with
  | nil => simp [minKeyBy] at h
  | cons hd tl =>
    obtain ⟨k0, v0⟩ := hd
    simp only [minKeyBy, Option.some.injEq] at h
    rcases minKeyByGo_mem f k0 (f v0) tl with h' | h'
    · simp [← h, h']
    · simp only [List.map_cons, List.mem_cons]
      right
      rw [← h]
      exact h'

theorem minKeyBy_isSome {α β : Type} (f : β → Nat) (l : List (α × β))
    (h : l ≠ []) : (minKeyBy f l).isSome := by
  cases l with
  | nil => exact absurd rfl h
  | cons hd tl => simp [minKeyBy]

theorem lookupKey_insertKey_ne {α β : Type} [DecidableEq α] (k k' : α) (v : β)
    (l : List (α × β)) (h : k ≠ k') :
    lookupKey k (insertKey k' v l) = lookupKey k l := by
  induction l with
  | nil => simp [insertKey, lookupKey, Ne.symm h]
  | cons hd tl ih =>
    obtain ⟨ka, va⟩ := hd
    by_cases hk : ka = k'
    · subst hk
      simp [insertKey, lookupKey, Ne.symm h]
    · simp only [insertKey, if_neg hk, lookupKey]
      by_cases hk2 : ka = k
      · simp [hk2]
      · simp [hk2, ih]

theorem lookupKey_eraseKey_self_of_nodup {α β : Type} [DecidableEq α] (k : α)
    (l : List (α × β)) (h : (l.map Prod.fst).Nodup) :
    lookupKey k (eraseKey k l) = none := by
  induction l with
  | nil => simp [eraseKey, lookupKey]
  | cons hd tl ih =>
    obtain ⟨ka, va⟩ := hd
    simp only [List.map_cons, List.nodup_cons] at h
    by_cases hk : ka = k
    · subst hk
      simp only [eraseKey, if_pos rfl]
      rw [lookupKey_eq_none_iff]
      exact h.1
    · simp only [eraseKey, if_neg hk, lookupKey, if_neg hk]
      exact ih h.2

/-! ## Announce-cache lemmas -/

theorem AnnounceCache.cleanup_expired_config (c : AnnounceCache) (now : Nat) :
    (c.cleanup_expired now).config = c.config := rfl

theorem AnnounceCache.evict_lru_config (c : AnnounceCache) :
    c.evict_lru.config = c.config := by
  unfold AnnounceCache.evict_lru
  split <;> rfl

theorem AnnounceCache.evict_expired_or_lru_config (c : AnnounceCache) (now : Nat) :
    (c.evict_expired_or_lru now).config = c.config := by
  simp only [AnnounceCache.evict_expired_or_lru]
  split
  · exact (c.cleanup_expired now).evict_lru_config
  · rfl

theorem AnnounceCache.peek_cleanup_none (c : AnnounceCache) (now : Nat)
    (hash : AnnounceHash) (h : c.peek hash = none) :
    (c.cleanup_expired now).peek hash = none :=
  lookupKey_filter_none hash _ c.entries h

theorem AnnounceCache.peek_evict_lru_none (c : AnnounceCache)
    (hash : AnnounceHash) (h : c.peek hash = none) :
    c.evict_lru.peek hash = none := by
  unfold AnnounceCache.evict_lru
  split
  · exact h
  · exact lookupKey_eraseKey_none hash _ c.entries h

theorem AnnounceCache.peek_evict_expired_or_lru_none (c : AnnounceCache)
    (now : Nat) (hash : AnnounceHash) (h : c.peek hash = none) :
    (c.evict_expired_or_lru now).peek hash = none := by
  simp only [AnnounceCache.evict_expired_or_lru]
  split
  · exact (c.cleanup_expired now).peek_evict_lru_none hash
      (c.peek_cleanup_none now hash h)
  · exact c.peek_cleanup_none now hash h

theorem AnnounceCache.length_evict_lru (c : AnnounceCache)
    (h : c.entries ≠ []) : c.evict_lru.entries.length + 1 = c.entries.length := by
  unfold AnnounceCache.evict_lru
  split
  · rename_i hm
    have := minKeyBy_isSome (fun e => e.last_accessed) c.entries h
    rw [hm] at this
    simp at this
  · rename_i k hm
    exact length_eraseKey_of_mem k c.entries (minKeyBy_mem _ _ _ hm)

theorem AnnounceCache.length_evict_expired_or_lru_lt (c : AnnounceCache)
    (now : Nat) (h : c.entries ≠ []) :
    (c.evict_expired_or_lru now).entries.length < c.entries.length := by
  have hpos : 0 < c.entries.length := List.length_pos.mpr h
  have hfl : (c.cleanup_expired now).entries.length ≤ c.entries.length :=
    List.length_filter_le _ _
  show (if (c.cleanup_expired now).entries.length = c.entries.length &&
      !(c.cleanup_expired now).entries.isEmpty then
        (c.cleanup_expired now).evict_lru
      else (c.cleanup_expired now)).entries.length < c.entries.length
  split
  · rename_i hcond
    simp only [Bool.and_eq_true, decide_eq_true_eq, Bool.not_eq_true'] at hcond
    have hne : (c.cleanup_expired now).entries ≠ [] := by
      intro hnil
      rw [hnil] at hcond
      simp at hcond
    have := (c.cleanup_expired now).length_evict_lru hne
    omega
  · rename_i hcond
    simp only [Bool.and_eq_true, decide_eq_true_eq, Bool.not_eq_true',
      not_and_or] at hcond
    rcases hcond with hcond | hcond
    · omega
    · have : (c.cleanup_expired now).entries = [] := by
        cases hem : (c.cleanup_expired now).entries.isEmpty
        · exact absurd hem hcond
        · exact List.isEmpty_iff.mp hem
      rw [this]
      simpa using hpos

theorem AnnounceCache.if_evict_config (c : AnnounceCache) (now : Nat) :
    (if c.config.max_entries ≤ c.entries.length then c.evict_expired_or_lru now
      else c).config = c.config := by
  split
  · exact c.evict_expired_or_lru_config now
  · rfl

theorem AnnounceCache.insert_peek_absent (c : AnnounceCache) (now : Nat)
    (hash : AnnounceHash) (hops : Nat)
    (h1 : (if c.config.max_entries ≤ c.entries.length then
      c.evict_expired_or_lru now else c).peek hash = none) :
    (c.insert now hash hops).1 = InsertResult.New ∧
    (c.insert now hash hops).2.peek hash = some (AnnounceEntry.new hops now) := by
  simp only [AnnounceCache.peek] at h1
  simp only [AnnounceCache.insert, AnnounceCache.peek]
  generalize (if c.config.max_entries ≤ c.entries.length then
    c.evict_expired_or_lru now else c) = c1 at h1 ⊢
  simp only [h1]
  refine ⟨trivial, ?_⟩
  have h2 : lookupKey hash (if c1.config.max_entries ≤ c1.entries.length then
      c1.evict_lru else c1).entries = none := by
    split
    · exact AnnounceCache.peek_evict_lru_none c1 hash h1
    · exact h1
  exact lookupKey_append_right hash _ _ h2

theorem AnnounceCache.insert_peek_found (c : AnnounceCache) (now : Nat)
    (hash : AnnounceHash) (hops : Nat) (e : AnnounceEntry)
    (h1 : (if c.config.max_entries ≤ c.entries.length then
      c.evict_expired_or_lru now else c).peek hash = some e) :
    (c.insert now hash hops).1 =
      (if hops < e.hops then InsertResult.BetterPath e.hops hops
       else InsertResult.Duplicate) ∧
    (c.insert now hash hops).2.peek hash = some
      { e with last_accessed := now, seen_count := satAddU32 e.seen_count 1,
               hops := if hops < e.hops then hops else e.hops } := by
  simp only [AnnounceCache.peek] at h1
  simp only [AnnounceCache.insert, AnnounceCache.peek, h1]
  constructor
  · by_cases hlt : hops < e.hops
    · simp [hlt]
    · simp [hlt]
  · by_cases hlt : hops < e.hops
    · simp only [if_pos hlt]
      rw [lookupKey_updateKey_self, h1]
      simp [hlt]
    · simp only [if_neg hlt]
      rw [lookupKey_updateKey_self, h1]
      simp [hlt]

theorem AnnounceCache.length_insert_le (c : AnnounceCache) (now : Nat)
    (hash : AnnounceHash) (hops : Nat) (hmax : 1 ≤ c.config.max_entries)
    (hlen : c.entries.length ≤ c.config.max_entries) :
    ((c.insert now hash hops).2).entries.length ≤ c.config.max_entries := by
  simp only [AnnounceCache.insert]
  by_cases hcap : c.config.max_entries ≤ c.entries.length
  · have hne : c.entries ≠ [] := by
      intro hnil
      rw [hnil] at hcap
      simp at hcap
      omega
    have hlt := c.length_evict_expired_or_lru_lt now hne
    rw [if_pos hcap]
    rcases hl : lookupKey hash (c.evict_expired_or_lru now).entries with _ | e
    · simp only [hl]
      rw [c.evict_expired_or_lru_config now]
      rw [if_neg (by omega)]
      simp only [List.length_append, List.length_cons, List.length_nil]
      omega
    · simp only [hl]
      split
      · simp only [length_updateKey]
        omega
      · simp only [length_updateKey]
        omega
  · rw [if_neg hcap]
    rcases hl : lookupKey hash c.entries with _ | e
    · simp only [hl]
      rw [if_neg hcap]
      simp only [List.length_append, List.length_cons, List.length_nil]
      omega
    · simp only [hl]
      split
      · simp only [length_updateKey]
        omega
      · simp only [length_updateKey]
        omega

theorem AnnounceCache.insert_config (c : AnnounceCache) (now : Nat)
    (hash : AnnounceHash) (hops : Nat) :
    ((c.insert now hash hops).2).config = c.config := by
  simp only [AnnounceCache.insert]
  have hcfg := c.if_evict_config now
  generalize (if c.config.max_entries ≤ c.entries.length then
    c.evict_expired_or_lru now else c) = c1 at hcfg ⊢
  rcases hl : lookupKey hash c1.entries with _ | e
  · simp only [hl]
    split
    · rw [AnnounceCache.evict_lru_config]
      exact hcfg
    · exact hcfg
  · simp only [hl]
    split
    · exact hcfg
    · exact hcfg

theorem AnnounceCache.getEntry_config (c : AnnounceCache) (now : Nat)
    (hash : AnnounceHash) : ((c.getEntry now hash).2).config = c.config := by
  simp only [AnnounceCache.getEntry]
  rcases hl : lookupKey hash c.entries with _ | e <;> simp [hl]

theorem AnnounceCache.length_getEntry (c : AnnounceCache) (now : Nat)
    (hash : AnnounceHash) :
    ((c.getEntry now hash).2).entries.length = c.entries.length := by
  simp only [AnnounceCache.getEntry]
  rcases hl : lookupKey hash c.entries with _ | e
  · simp [hl]
  · simp [hl, length_updateKey]

/-- Reachable caches have a positive capacity bound and respect it. -/
theorem announce_reachable_inv (c : AnnounceCache) (h : AnnounceCacheReachable c) :
    1 ≤ c.config.max_entries ∧ c.entries.length ≤ c.config.max_entries := by
  induction h with
  | new config hv =>
    simp only [AnnounceCacheConfig.validateOk, Bool.and_eq_true,
      decide_eq_true_eq] at hv
    exact ⟨hv.1, by simp [AnnounceCache.new]⟩
  | insert c now hash hops h ih =>
    refine ⟨?_, ?_⟩
    · rw [AnnounceCache.insert_config]
      exact ih.1
    · rw [AnnounceCache.insert_config]
      exact c.length_insert_le now hash hops ih.1 ih.2
  | get c now hash h ih =>
    refine ⟨?_, ?_⟩
    · rw [AnnounceCache.getEntry_config]
      exact ih.1
    · rw [AnnounceCache.getEntry_config, AnnounceCache.length_getEntry]
      exact ih.2
  | remove c hash h ih =>
    exact ⟨ih.1, le_trans (length_eraseKey_le hash c.entries) ih.2⟩
  | clear c h ih =>
    exact ⟨ih.1, by simp [AnnounceCache.clear]⟩
  | cleanup c now h ih =>
    exact ⟨ih.1, le_trans (List.length_filter_le _ _) ih.2⟩

/-- C9: for every `AnnounceCache` created with a validated configuration and
every operation sequence, the number of entries never exceeds `max_entries`;
and when `insert` of a new key finds the cache at capacity, expired entries
(by `first_seen`) are dropped first, and only if none expired is the entry
with the smallest `last_accessed` evicted. -/
theorem announce_cache_bound_and_eviction_policy :
    (∀ c : AnnounceCache, AnnounceCacheReachable c →
      c.entries.length ≤ c.config.max_entries) ∧
    (∀ (c : AnnounceCache) (now : Nat) (hash : AnnounceHash) (hops : Nat),
      1 ≤ c.config.max_entries →
      c.entries.length = c.config.max_entries →
      c.peek hash = none →
      ((c.entries.any fun e => c.config.ttl ≤ now - e.2.first_seen) = true →
        (c.insert now hash hops).2.entries =
          (c.entries.filter fun e => now - e.2.first_seen < c.config.ttl)
            ++ [(hash, AnnounceEntry.new hops now)]) ∧
      ((c.entries.any fun e => c.config.ttl ≤ now - e.2.first_seen) = false →
        ∀ k, minKeyBy (fun e => e.last_accessed) c.entries = some k →
          (c.insert now hash hops).2.entries =
            eraseKey k c.entries ++ [(hash, AnnounceEntry.new hops now)])) := by
  constructor
  · intro c h
    exact (announce_reachable_inv c h).2
  · intro c now hash hops hmax hlen habs
    have hcap : c.config.max_entries ≤ c.entries.length := le_of_eq hlen.symm
    constructor
    · intro hany
      have hflt : (c.entries.filter fun e =>
          now - e.2.first_seen < c.config.ttl).length < c.entries.length := by
        rw [List.any_eq_true] at hany
        obtain ⟨x, hx, hxp⟩ := hany
        apply List.length_filter_lt_length_iff_exists.mpr
        refine ⟨x, hx, ?_⟩
        simp only [decide_eq_true_eq] at hxp ⊢
        omega
      have hev : c.evict_expired_or_lru now = c.cleanup_expired now := by
        simp only [AnnounceCache.evict_expired_or_lru]
        have hne : ¬((c.cleanup_expired now).entries.length = c.entries.length) := by
          simp only [AnnounceCache.cleanup_expired]
          omega
        simp [hne]
      have habs1 : (c.cleanup_expired now).peek hash = none :=
        c.peek_cleanup_none now hash habs
      simp only [AnnounceCache.peek] at habs1
      simp only [AnnounceCache.insert, if_pos hcap, hev, habs1]
      have hlen1 : ¬((c.cleanup_expired now).config.max_entries ≤
          (c.cleanup_expired now).entries.length) := by
        simp only [AnnounceCache.cleanup_expired]
        simp only [AnnounceCache.cleanup_expired] at hflt
        omega
      rw [if_neg hlen1]
      rfl
    · intro hnone k hk
      have hall : ∀ x ∈ c.entries,
          (decide (now - x.2.first_seen < c.config.ttl)) = true := by
        intro x hx
        rw [List.any_eq_false] at hnone
        have := hnone x hx
        simp only [decide_eq_true_eq] at this ⊢
        omega
      have hfeq : (c.cleanup_expired now).entries = c.entries :=
        List.filter_eq_self.mpr hall
      have hne : c.entries ≠ [] := by
        intro hnil
        rw [hnil] at hlen
        simp at hlen
        omega
      have hev : c.evict_expired_or_lru now =
          { c with entries := eraseKey k c.entries } := by
        simp only [AnnounceCache.evict_expired_or_lru]
        have hcond : ((c.cleanup_expired now).entries.length = c.entries.length) := by
          rw [hfeq]
        have hnemp : ¬(c.cleanup_expired now).entries.isEmpty := by
          rw [hfeq]
          simpa [List.isEmpty_iff] using hne
        rw [if_pos (by simp [hcond, hnemp])]
        have hcc : c.cleanup_expired now = c := by
          show ({ c with entries := (c.cleanup_expired now).entries } : AnnounceCache) = c
          rw [hfeq]
        rw [hcc]
        unfold AnnounceCache.evict_lru
        rw [hk]
      have habs1 : lookupKey hash (eraseKey k c.entries) = none := by
        have := habs
        simp only [AnnounceCache.peek] at this
        exact lookupKey_eraseKey_none hash k c.entries this
      simp only [AnnounceCache.insert, if_pos hcap, hev, habs1]
      have hkmem := minKeyBy_mem _ _ _ hk
      have herase := length_eraseKey_of_mem k c.entries hkmem
      have hlen1 : ¬(c.config.max_entries ≤ (eraseKey k c.entries).length) := by
        omega
      rw [if_neg hlen1]

/-- Witness for the eviction-policy theorem at a concrete at-capacity cache. -/
theorem announce_cache_bound_and_eviction_policy_witness :
    (AnnounceCache.new ⟨1, 100⟩).entries.length ≤
      (AnnounceCache.new ⟨1, 100⟩).config.max_entries ∧
    ((((AnnounceCache.new ⟨1, 100⟩).insert 0 (1 :: List.replicate 15 0) 5).2.insert 0
        (2 :: List.replicate 15 0) 7).2.entries =
      eraseKey (1 :: List.replicate 15 0)
        ((AnnounceCache.new ⟨1, 100⟩).insert 0 (1 :: List.replicate 15 0) 5).2.entries
        ++ [(2 :: List.replicate 15 0, AnnounceEntry.new 7 0)]) :=
  ⟨announce_cache_bound_and_eviction_policy.1 _
      (AnnounceCacheReachable.new ⟨1, 100⟩ (by decide)),
    (announce_cache_bound_and_eviction_policy.2
      ((AnnounceCache.new ⟨1, 100⟩).insert 0 (1 :: List.replicate 15 0) 5).2 0
      (2 :: List.replicate 15 0) 7 (by decide) (by decide) (by decide)).2
      (by decide) (1 :: List.replicate 15 0) (by decide)⟩

/-- C1 counterexample: a validated cache at capacity (`max_entries = 1`)
containing the hash being inserted; `insert` evicts that very entry in its
pre-insert eviction pass and returns `New` with `seen_count` reset to 1,
where the claim demands `Duplicate` with `seen_count` incremented. -/
theorem announce_insert_at_capacity_counterexample :
    AnnounceCacheConfig.validateOk ⟨1, 100⟩ = true ∧
    ((AnnounceCache.new ⟨1, 100⟩).insert 0 (List.replicate 16 0) 5).2.containsHash
      (List.replicate 16 0) = true ∧
    (((AnnounceCache.new ⟨1, 100⟩).insert 0 (List.replicate 16 0) 5).2.insert 1
      (List.replicate 16 0) 5).1 = InsertResult.New ∧
    ((((AnnounceCache.new ⟨1, 100⟩).insert 0 (List.replicate 16 0) 5).2.insert 1
      (List.replicate 16 0) 5).2.peek (List.replicate 16 0)).map
      AnnounceEntry.seen_count = some 1 := by
  decide

/-- C1 (amended): `insert` behaves as the claim states — `New` with a fresh
entry when the hash is absent, `Duplicate` / `BetterPath` with the described
entry updates when it is present — except that when the cache is at capacity
the pre-insert eviction pass may remove the very hash being inserted (when
it has expired, or when none expired and it is the least-recently-used
entry), in which case the result is `New` and the entry restarts with
`seen_count = 1`. -/
theorem announce_insert_characterization (c : AnnounceCache) (now : Nat)
    (hash : AnnounceHash) (hops : Nat) :
    (c.peek hash = none →
      (c.insert now hash hops).1 = InsertResult.New ∧
      (c.insert now hash hops).2.peek hash = some (AnnounceEntry.new hops now)) ∧
    (∀ e, c.peek hash = some e → c.entries.length < c.config.max_entries →
      (hops < e.hops →
        (c.insert now hash hops).1 = InsertResult.BetterPath e.hops hops) ∧
      (e.hops ≤ hops → (c.insert now hash hops).1 = InsertResult.Duplicate) ∧
      (c.insert now hash hops).2.peek hash = some
        { e with last_accessed := now, seen_count := satAddU32 e.seen_count 1,
                 hops := if hops < e.hops then hops else e.hops }) ∧
    (∀ e, c.config.max_entries ≤ c.entries.length →
      (c.evict_expired_or_lru now).peek hash = some e →
      (hops < e.hops →
        (c.insert now hash hops).1 = InsertResult.BetterPath e.hops hops) ∧
      (e.hops ≤ hops → (c.insert now hash hops).1 = InsertResult.Duplicate) ∧
      (c.insert now hash hops).2.peek hash = some
        { e with last_accessed := now, seen_count := satAddU32 e.seen_count 1,
                 hops := if hops < e.hops then hops else e.hops }) ∧
    (c.config.max_entries ≤ c.entries.length →
      (c.evict_expired_or_lru now).peek hash = none →
      (c.insert now hash hops).1 = InsertResult.New ∧
      (c.insert now hash hops).2.peek hash = some (AnnounceEntry.new hops now)) := by
  refine ⟨?_, ?_, ?_, ?_⟩
  · intro h
    apply c.insert_peek_absent now hash hops
    split
    · exact c.peek_evict_expired_or_lru_none now hash h
    · exact h
  · intro e he hlt
    have h1 : (if c.config.max_entries ≤ c.entries.length then
        c.evict_expired_or_lru now else c).peek hash = some e := by
      rw [if_neg (by omega)]
      exact he
    have := c.insert_peek_found now hash hops e h1
    refine ⟨?_, ?_, this.2⟩
    · intro hlt'
      rw [this.1, if_pos hlt']
    · intro hge
      rw [this.1, if_neg (by omega)]
  · intro e hcap he
    have h1 : (if c.config.max_entries ≤ c.entries.length then
        c.evict_expired_or_lru now else c).peek hash = some e := by
      rw [if_pos hcap]
      exact he
    have := c.insert_peek_found now hash hops e h1
    refine ⟨?_, ?_, this.2⟩
    · intro hlt'
      rw [this.1, if_pos hlt']
    · intro hge
      rw [this.1, if_neg (by omega)]
  · intro hcap he
    apply c.insert_peek_absent now hash hops
    rw [if_pos hcap]
    exact he

/-- Witness for the insert characterization: a fresh insert into an empty
cache and a duplicate insert below capacity. -/
theorem announce_insert_characterization_witness :
    (((AnnounceCache.new ⟨2, 100⟩).insert 0 (List.replicate 16 0) 5).1 =
      InsertResult.New ∧
    ((AnnounceCache.new ⟨2, 100⟩).insert 0 (List.replicate 16 0) 5).2.peek
      (List.replicate 16 0) = some (AnnounceEntry.new 5 0)) ∧
    ((((AnnounceCache.new ⟨2, 100⟩).insert 0 (List.replicate 16 0) 5).2.insert 1
      (List.replicate 16 0) 5).1 = InsertResult.Duplicate) :=
  ⟨(announce_insert_characterization (AnnounceCache.new ⟨2, 100⟩) 0
      (List.replicate 16 0) 5).1 (by decide),
   ((announce_insert_characterization
      ((AnnounceCache.new ⟨2, 100⟩).insert 0 (List.replicate 16 0) 5).2 1
      (List.replicate 16 0) 5).2.1 (AnnounceEntry.new 5 0) (by decide)
      (by decide)).2.1 (by decide)⟩

/-! ## Claim theorems: path table -/

/-- C3: the code violates the claimed bound on the outer map.  `add_path`
materialises a new destination via `entry().or_default()` without ever
checking `max_destinations`: on a validated configuration with
`max_destinations = 1`, two `add_path` calls on distinct destinations leave
the table with 2 destinations. -/
theorem pathTable_add_path_exceeds_max_destinations :
    PathTableConfig.validateOk ⟨1, 1, 100⟩ = true ∧
    (((PathTable.new ⟨1, 1, 100⟩).add_path 0 (1 :: List.replicate 15 0)
        InterfaceType.LoRa none ⟨0, none, false⟩).2.add_path 0
        (2 :: List.replicate 15 0) InterfaceType.LoRa none
        ⟨0, none, false⟩).2.destination_count = 2 := by
  decide

/-! ## Claim theorems: routing metrics score (C4) -/

theorem wrapI16_eq_self (x : Int) (h1 : -32768 ≤ x) (h2 : x ≤ 32767) :
    wrapI16 x = x := by
  unfold wrapI16
  omega

/-- C4 counterexample: with `rssi_dbm` ranging over all of `i16`, a shorter
path can score strictly lower — hops 0 with RSSI −32768 dBm loses to hops 1
with RSSI 32000 dBm (validated). -/
theorem score_shorter_path_counterexample :
    (RoutingMetrics.mk 0 (some (-32768)) false).hops <
      (RoutingMetrics.mk 1 (some 32000) true).hops ∧
    ¬((RoutingMetrics.mk 1 (some 32000) true).score <
      (RoutingMetrics.mk 0 (some (-32768)) false).score) := by
  constructor
  · decide
  · show ¬(286620 < 222352)
    decide

/-- C4 (amended): for RSSI values within the documented −120‥0 dBm range
(`normalized_rssi ∈ [0, 120]`), any shorter path scores strictly higher than
any longer one, regardless of RSSI and validation, because the 1000-per-hop
weight exceeds the maximal RSSI contribution (120) plus the validation
bonus (500). -/
theorem score_shorter_path_wins (m1 m2 : RoutingMetrics)
    (h1 : ∀ r, m1.rssi_dbm = some r → -120 ≤ r ∧ r ≤ 0)
    (h2 : ∀ r, m2.rssi_dbm = some r → -120 ≤ r ∧ r ≤ 0)
    (hh : m1.hops < m2.hops) : m2.score < m1.score := by
  obtain ⟨hops1, rssi1, val1⟩ := m1
  obtain ⟨hops2, rssi2, val2⟩ := m2
  simp only at h1 h2 hh
  have hcast : (hops1 : Int) < (hops2 : Int) := by exact_mod_cast hh
  cases rssi1 with
  | none =>
    cases rssi2 with
    | none =>
      simp only [RoutingMetrics.score]
      split_ifs <;> omega
    | some r2 =>
      have hb2 := h2 r2 rfl
      simp only [RoutingMetrics.score]
      rw [wrapI16_eq_self (r2 + 120) (by omega) (by omega)]
      split_ifs <;> omega
  | some r1 =>
    have hb1 := h1 r1 rfl
    cases rssi2 with
    | none =>
      simp only [RoutingMetrics.score]
      rw [wrapI16_eq_self (r1 + 120) (by omega) (by omega)]
      split_ifs <;> omega
    | some r2 =>
      have hb2 := h2 r2 rfl
      simp only [RoutingMetrics.score]
      rw [wrapI16_eq_self (r1 + 120) (by omega) (by omega),
        wrapI16_eq_self (r2 + 120) (by omega) (by omega)]
      split_ifs <;> omega

/-- Witness for the amended scoring theorem: 2 hops at −90 dBm validated
still beats 5 hops at −60 dBm unvalidated. -/
theorem score_shorter_path_wins_witness :
    (RoutingMetrics.mk 5 (some (-60)) true).score <
      (RoutingMetrics.mk 2 (some (-90)) false).score :=
  score_shorter_path_wins (RoutingMetrics.mk 2 (some (-90)) false)
    (RoutingMetrics.mk 5 (some (-60)) true)
    (by intro r hr; simp at hr; omega)
    (by intro r hr; simp at hr; omega)
    (by decide)

/-! ## Claim theorems: duty cycle (C7) and CSMA (C8) -/

theorem DutyCycleLimiter.refill_budget_eq (s : DutyCycleLimiter) (now : Nat) :
    (s.refill now).budget_us = s.budget_us := by
  simp only [DutyCycleLimiter.refill]
  split
  · rfl
  · split <;> rfl

theorem DutyCycleLimiter.refill_remaining_le (s : DutyCycleLimiter) (now : Nat)
    (h : s.remaining_us ≤ s.budget_us) :
    (s.refill now).remaining_us ≤ s.budget_us := by
  simp only [DutyCycleLimiter.refill]
  split
  · exact h
  · split
    · simp only
      exact min_le_right _ _
    · exact h

theorem DutyCycleLimiter.try_consume_budget_eq (s : DutyCycleLimiter)
    (now airtime_us : Nat) :
    ((s.try_consume now airtime_us).2).budget_us = s.budget_us := by
  simp only [DutyCycleLimiter.try_consume]
  split
  · exact s.refill_budget_eq now
  · exact s.refill_budget_eq now

/-- C7: `try_consume` refills, then either debits exactly `airtime_us` and
returns `true` (when the refilled budget suffices) or leaves the refilled
state untouched and returns `false`; and on every reachable limiter
`remaining_us ≤ budget_us` (refilling never pushes the bucket above its
budget; non-negativity is inherent in the `u64`/`Nat` representation). -/
theorem dutyCycle_try_consume_spec :
    (∀ (s : DutyCycleLimiter) (now airtime_us : Nat),
      (airtime_us ≤ (s.refill now).remaining_us →
        s.try_consume now airtime_us =
          (true, { s.refill now with
            remaining_us := (s.refill now).remaining_us - airtime_us })) ∧
      ((s.refill now).remaining_us < airtime_us →
        s.try_consume now airtime_us = (false, s.refill now))) ∧
    (∀ (s : DutyCycleLimiter) (now : Nat),
      s.remaining_us ≤ s.budget_us →
      (s.refill now).remaining_us ≤ s.budget_us) ∧
    (∀ s : DutyCycleLimiter, DutyCycleReachable s →
      s.remaining_us ≤ s.budget_us) := by
  refine ⟨?_, ?_, ?_⟩
  · intro s now airtime_us
    constructor
    · intro h
      unfold DutyCycleLimiter.try_consume
      rw [if_pos h]
    · intro h
      unfold DutyCycleLimiter.try_consume
      rw [if_neg (by omega)]
  · intro s now h
    exact s.refill_remaining_le now h
  · intro s h
    induction h with
    | new budget_us window_us now => simp [DutyCycleLimiter.newWithBudget]
    | consume s now airtime_us h ih =>
      rw [s.try_consume_budget_eq now airtime_us]
      simp only [DutyCycleLimiter.try_consume]
      have hre := s.refill_remaining_le now ih
      split
      · simp only
        omega
      · exact hre
    | refill s now h ih =>
      rw [s.refill_budget_eq now]
      exact s.refill_remaining_le now ih

/-- Witness for the duty-cycle theorem: the EU-style 36 s budget debits
exactly, rejects an over-budget request, and a fresh bucket satisfies the
invariant. -/
theorem dutyCycle_try_consume_spec_witness :
    ((DutyCycleLimiter.newWithBudget 36000000 3600000000 0).try_consume 0 1000000 =
      (true, { DutyCycleLimiter.newWithBudget 36000000 3600000000 0 with
        remaining_us := 35000000 })) ∧
    ((DutyCycleLimiter.newWithBudget 36000000 3600000000 0).remaining_us ≤
      (DutyCycleLimiter.newWithBudget 36000000 3600000000 0).budget_us) := by
  constructor
  · have h := (dutyCycle_try_consume_spec.1
      (DutyCycleLimiter.newWithBudget 36000000 3600000000 0) 0 1000000).1
      (by decide)
    rw [h]
    decide
  · exact dutyCycle_try_consume_spec.2.2 _
      (DutyCycleReachable.new 36000000 3600000000 0)

/-- C8: on a validated configuration and any reachable CSMA state,
`try_access` returns `Transmit` whenever `rssi ≤ threshold`, leaving the
state (in particular the retry counter) untouched. -/
theorem csma_transmit_on_clear_channel (config : CsmaConfig)
    (_hv : config.validateOk = true) (c : Csma) (hc : c.config = config)
    (_hr : CsmaReachable c) (rssi_dbm : Int)
    (h : rssi_dbm ≤ config.rssi_threshold_dbm) :
    c.try_access rssi_dbm = (CsmaResult.Transmit, c) := by
  unfold Csma.try_access
  rw [if_pos]
  show c.is_channel_clear rssi_dbm = true
  unfold Csma.is_channel_clear
  rw [hc]
  exact decide_eq_true h

/-- Witness for the CSMA theorem at the default configuration. -/
theorem csma_transmit_on_clear_channel_witness :
    (Csma.new ⟨-90, 5, 10, 500⟩).try_access (-100) =
      (CsmaResult.Transmit, Csma.new ⟨-90, 5, 10, 500⟩) :=
  csma_transmit_on_clear_channel ⟨-90, 5, 10, 500⟩ (by decide)
    (Csma.new ⟨-90, 5, 10, 500⟩) rfl
    (CsmaReachable.new ⟨-90, 5, 10, 500⟩ (by decide)) (-100) (by decide)

/-! ## Fragmenter lemmas -/

theorem fragmentGo_length (mp : Nat) (hmp : 1 ≤ mp) (seq : Nat) (first : Bool)
    (l : List Nat) :
    (fragmentGo mp seq first l).length = (l.length + mp - 1) / mp := by
  induction seq, first, l using fragmentGo.induct mp with
  | case1 seq first =>
    simp only [fragmentGo, List.length_nil, Nat.zero_add]
    rw [Nat.div_eq_of_lt (by omega)]
  | case2 seq first b bs ih =>
    simp only [fragmentGo, List.length_cons]
    rw [ih]
    simp only [List.length_drop]
    rcases le_or_lt (mp - 1) bs.length with hle | hlt
    · have h1 : bs.length - (mp - 1) + mp - 1 = bs.length := by omega
      have h2 : bs.length + 1 + mp - 1 = bs.length + mp := by omega
      rw [h1, h2, Nat.add_div_right _ (by omega)]
    · have h1 : bs.length - (mp - 1) + mp - 1 = mp - 1 := by omega
      rw [h1, Nat.div_eq_of_lt (by omega)]
      have h2 : (bs.length + 1 + mp - 1) / mp = 1 :=
        Nat.div_eq_of_lt_le (by omega) (by omega)
      rw [h2]

theorem fragmentGo_flatten (mp : Nat) (_hmp : 1 ≤ mp) (seq : Nat) (first : Bool)
    (l : List Nat) :
    ((fragmentGo mp seq first l).map (fun f => f.payload)).flatten = l := by
  induction seq, first, l using fragmentGo.induct mp with
  | case1 seq first => simp [fragmentGo]
  | case2 seq first b bs ih =>
    simp only [fragmentGo, List.map_cons, List.flatten_cons]
    rw [ih]
    simp [List.take_append_drop]

theorem fragmentGo_get? (mp : Nat) (hmp : 1 ≤ mp) (seq : Nat) (first : Bool)
    (l : List Nat) :
    seq < 256 → ∀ (i : Nat) (f : Fragment),
      (fragmentGo mp seq first l).get? i = some f →
      f.sequence = (seq + i) % 256 ∧
      f.flags = (if first ∧ i = 0 then FLAG_FIRST_FRAGMENT else 0) +
        (if i + 1 < (fragmentGo mp seq first l).length then FLAG_MORE_FRAGMENTS
         else 0) := by
  induction seq, first, l using fragmentGo.induct mp with
  | case1 seq first =>
    intro _ i f hf
    simp [fragmentGo] at hf
  | case2 seq first b bs ih =>
    intro hseq i f hf
    cases i with
    | zero =>
      simp only [fragmentGo, List.get?_cons_zero, Option.some.injEq] at hf
      subst hf
      refine ⟨by simp [Nat.mod_eq_of_lt hseq], ?_⟩
      simp only [fragmentGo, List.length_cons]
      by_cases hmore : mp < bs.length + 1
      · have h2 : 0 + 1 < (fragmentGo mp ((seq + 1) % 256) false
            (bs.drop (mp - 1))).length + 1 := by
          rw [fragmentGo_length mp hmp]
          simp only [List.length_drop]
          have : 1 ≤ ((bs.length - (mp - 1)) + mp - 1) / mp :=
            (Nat.le_div_iff_mul_le (by omega)).mpr (by omega)
          omega
        have hmore' : decide (mp < bs.length + 1) = true := decide_eq_true hmore
        simp only [List.length_cons, if_pos h2, hmore']
        cases first <;> simp
      · have hdrop : (bs.drop (mp - 1)) = [] := List.drop_eq_nil_of_le (by omega)
        have h2 : ¬(0 + 1 < (fragmentGo mp ((seq + 1) % 256) false
            (bs.drop (mp - 1))).length + 1) := by
          rw [hdrop]
          simp [fragmentGo]
        have hmore' : decide (mp < bs.length + 1) = false := decide_eq_false hmore
        simp only [List.length_cons, if_neg h2, hmore']
        cases first <;> simp
    | succ i =>
      simp only [fragmentGo, List.get?_cons_succ] at hf
      have hrec := ih (Nat.mod_lt _ (by omega)) i f hf
      constructor
      · rw [hrec.1, Nat.mod_add_mod]
        congr 1
        omega
      · rw [hrec.2]
        have hno : ¬(first = true ∧ i + 1 = 0) := by simp
        have hno2 : ¬(false = true ∧ i = 0) := by simp
        rw [if_neg hno, if_neg hno2]
        simp only [Nat.zero_add, fragmentGo, List.length_cons]
        by_cases hlt : i + 1 < (fragmentGo mp ((seq + 1) % 256) false
            (bs.drop (mp - 1))).length
        · rw [if_pos hlt, if_pos (by omega)]
        · rw [if_neg hlt, if_neg (by omega)]

theorem fragmentGo_single (mp : Nat) (hmp : 1 ≤ mp) (seq : Nat) (p : List Nat)
    (hne : p ≠ []) (hlen : p.length ≤ mp) :
    fragmentGo mp seq true p = [Fragment.mk seq 1 p] := by
  cases p with
  | nil => exact absurd rfl hne
  | cons b bs =>
    simp only [List.length_cons] at hlen
    have hdrop : bs.drop (mp - 1) = [] := List.drop_eq_nil_of_le (by omega)
    have htake : bs.take (mp - 1) = bs := List.take_of_length_le (by omega)
    have hmore : decide (mp < (b :: bs).length) = false := by
      simp only [List.length_cons]
      exact decide_eq_false (by omega)
    simp only [fragmentGo, hdrop, htake, hmore]
    simp [fragmentGo, FLAG_FIRST_FRAGMENT]

theorem Fragmenter.fragment_ok (f : Fragmenter) (p : List Nat) (hp : p ≠ []) :
    f.fragment p = Except.ok
      (fragmentGo f.max_payload f.next_sequence true p,
       { f with next_sequence := (f.next_sequence +
          (fragmentGo f.max_payload f.next_sequence true p).length) % 256 }) := by
  unfold Fragmenter.fragment
  rw [if_neg (by simpa [List.isEmpty_iff] using hp)]

/-- C6: for a non-empty packet and `mtu ≥ 3`, `fragment` returns exactly
`⌈len / (mtu − 2)⌉` fragments whose payloads concatenate to the packet, the
fragment at index `i` has sequence `(next_sequence + i) mod 256`, carries
`FIRST` exactly when `i = 0` and `MORE` exactly when it is not last, and a
packet that fits in one fragment yields the single fragment
`(next_sequence, FIRST, packet)`. -/
theorem fragmenter_fragment_correct (mtu seq0 : Nat) (p : List Nat)
    (hmtu : 3 ≤ mtu) (hseq : seq0 < 256) (hp : p ≠ [])
    (frs : List Fragment) (f' : Fragmenter)
    (hfr : Fragmenter.fragment ⟨mtu, seq0⟩ p = Except.ok (frs, f')) :
    frs.length = (p.length + (mtu - 2) - 1) / (mtu - 2) ∧
    ((frs.map fun fr => fr.payload).flatten = p) ∧
    (∀ i fr, frs.get? i = some fr →
      fr.sequence = (seq0 + i) % 256 ∧
      fr.is_first = decide (i = 0) ∧
      fr.has_more = decide (i + 1 < frs.length)) ∧
    (p.length ≤ mtu - 2 → frs = [Fragment.mk seq0 1 p]) := by
  have hmp : 1 ≤ mtu - 2 := by omega
  rw [Fragmenter.fragment_ok _ p hp] at hfr
  simp only [Except.ok.injEq, Prod.mk.injEq] at hfr
  have hfrs : frs = fragmentGo (mtu - 2) seq0 true p := hfr.1.symm
  refine ⟨?_, ?_, ?_, ?_⟩
  · rw [hfrs]
    exact fragmentGo_length (mtu - 2) hmp seq0 true p
  · rw [hfrs]
    exact fragmentGo_flatten (mtu - 2) hmp seq0 true p
  · intro i fr h
    rw [hfrs] at h ⊢
    have hif := fragmentGo_get? (mtu - 2) hmp seq0 true p hseq i fr h
    refine ⟨hif.1, ?_, ?_⟩
    · have hflags := hif.2
      simp only [FLAG_FIRST_FRAGMENT, FLAG_MORE_FRAGMENTS, eq_self_iff_true,
        true_and] at hflags
      simp only [Fragment.is_first, hflags]
      rw [decide_eq_decide]
      split_ifs with h0 hm hm <;>
        simp_all [FLAG_FIRST_FRAGMENT, FLAG_MORE_FRAGMENTS]
    · have hflags := hif.2
      simp only [FLAG_FIRST_FRAGMENT, FLAG_MORE_FRAGMENTS, eq_self_iff_true,
        true_and] at hflags
      simp only [Fragment.has_more, hflags]
      rw [decide_eq_decide]
      split_ifs with h0 hm hm <;>
        simp_all [FLAG_FIRST_FRAGMENT, FLAG_MORE_FRAGMENTS]
  · intro hsingle
    rw [hfrs]
    exact fragmentGo_single (mtu - 2) hmp seq0 p hp hsingle

/-- Witness for the fragmenter theorem at a 5-byte packet and MTU 20. -/
theorem fragmenter_fragment_correct_witness :
    ([Fragment.mk 0 1 [1, 2, 3, 4, 5]] : List Fragment).length =
      (([1, 2, 3, 4, 5] : List Nat).length + (20 - 2) - 1) / (20 - 2) ∧
    (([Fragment.mk 0 1 [1, 2, 3, 4, 5]] : List Fragment).map
      fun fr => fr.payload).flatten = [1, 2, 3, 4, 5] := by
  have hfr : Fragmenter.fragment ⟨20, 0⟩ [1, 2, 3, 4, 5] =
      Except.ok ([Fragment.mk 0 1 [1, 2, 3, 4, 5]], ⟨20, 1⟩) := by
    rw [Fragmenter.fragment_ok ⟨20, 0⟩ [1, 2, 3, 4, 5] (by decide)]
    rw [show (Fragmenter.mk 20 0).max_payload = 18 from rfl]
    rw [fragmentGo_single 18 (by decide) 0 [1, 2, 3, 4, 5] (by decide) (by decide)]
    rfl
  have h := fragmenter_fragment_correct 20 0 [1, 2, 3, 4, 5] (by decide)
    (by decide) (by decide) [Fragment.mk 0 1 [1, 2, 3, 4, 5]] ⟨20, 1⟩ hfr
  exact ⟨h.1, h.2.1⟩

/-! ## Reassembler lemmas -/

theorem length_insertKey_le {α β : Type} [DecidableEq α] (k : α) (v : β)
    (l : List (α × β)) : (insertKey k v l).length ≤ l.length + 1 := by
  induction l with
  | nil => simp [insertKey]
  | cons hd tl ih =>
    obtain ⟨ka, va⟩ := hd
    by_cases hk : ka = k
    · simp [insertKey, hk]
    · simp only [insertKey, if_neg hk, List.length_cons]
      omega

theorem Reassembler.cleanup_fields (r : Reassembler) (now : Nat) :
    (r.cleanup_expired now).max_pending = r.max_pending ∧
    (r.cleanup_expired now).timeout = r.timeout ∧
    (r.cleanup_expired now).max_fragments_per_packet =
      r.max_fragments_per_packet := ⟨rfl, rfl, rfl⟩

theorem Reassembler.add_fragment_max_pending (r : Reassembler) (now : Nat)
    (source : BleAddress) (f : Fragment) :
    ((r.add_fragment now source f).2).max_pending = r.max_pending := by
  simp only [Reassembler.add_fragment]
  repeat' split
  all_goals rfl

theorem Reassembler.add_fragment_len (r : Reassembler) (now : Nat)
    (source : BleAddress) (f : Fragment) (hmax : 1 ≤ r.max_pending)
    (hlen : r.pending.length ≤ r.max_pending) :
    ((r.add_fragment now source f).2).pending.length ≤ r.max_pending := by
  have hlen1 : (r.cleanup_expired now).pending.length ≤ r.pending.length :=
    List.length_filter_le _ _
  have hcf : (r.cleanup_expired now).max_pending = r.max_pending := rfl
  simp only [Reassembler.add_fragment]
  generalize hrc : r.cleanup_expired now = rc at hlen1 hcf ⊢
  split
  · exact hlen
  · split
    · split
      · show rc.pending.length ≤ r.max_pending
        omega
      · split
        · rename_i hcap
          rw [hcf] at hcap
          rcases hk : rc.find_oldest_pending with _ | k
          · have hmk : minKeyBy (fun p => p.started) rc.pending = none := hk
            have hnil : rc.pending = [] := by
              rcases hp : rc.pending with _ | ⟨hd, tl⟩
              · rfl
              · exfalso
                have hs := minKeyBy_isSome (fun p => p.started) rc.pending
                  (by rw [hp]; simp)
                rw [hmk] at hs
                simp at hs
            simp only [hk]
            split
            · show rc.pending.length ≤ r.max_pending
              omega
            · show (insertKey (ReassemblyKey.mk source f.sequence)
                { fragments := insertKey f.sequence f.payload [],
                  first_sequence := f.sequence, last_sequence := none,
                  started := now } rc.pending).length ≤ r.max_pending
              rw [hnil]
              show 1 ≤ r.max_pending
              omega
          · have hmk : minKeyBy (fun p => p.started) rc.pending = some k := hk
            have hkmem := minKeyBy_mem _ _ _ hmk
            have herase := length_eraseKey_of_mem k rc.pending hkmem
            simp only [hk]
            split
            · show (eraseKey k rc.pending).length ≤ r.max_pending
              omega
            · show (insertKey (ReassemblyKey.mk source f.sequence)
                { fragments := insertKey f.sequence f.payload [],
                  first_sequence := f.sequence, last_sequence := none,
                  started := now } (eraseKey k rc.pending)).length ≤ r.max_pending
              have hins := length_insertKey_le
                (ReassemblyKey.mk source f.sequence)
                { fragments := insertKey f.sequence f.payload [],
                  first_sequence := f.sequence, last_sequence := none,
                  started := now }
                (eraseKey k rc.pending)
              omega
        · rename_i hcap
          rw [hcf] at hcap
          split
          · show rc.pending.length ≤ r.max_pending
            omega
          · show (insertKey (ReassemblyKey.mk source f.sequence)
              { fragments := insertKey f.sequence f.payload [],
                first_sequence := f.sequence, last_sequence := none,
                started := now } rc.pending).length ≤ r.max_pending
            have hins := length_insertKey_le
              (ReassemblyKey.mk source f.sequence)
              { fragments := insertKey f.sequence f.payload [],
                first_sequence := f.sequence, last_sequence := none,
                started := now }
              rc.pending
            omega
    · split
      · show rc.pending.length ≤ r.max_pending
        omega
      · rename_i key hkey
        split
        · show rc.pending.length ≤ r.max_pending
          omega
        · rename_i pp hpp
          split
          · show (eraseKey key rc.pending).length ≤ r.max_pending
            have h2 := length_eraseKey_le key rc.pending
            omega
          · split <;> split
            all_goals
              first
              | (show (eraseKey key rc.pending).length ≤ r.max_pending
                 have h2 := length_eraseKey_le key rc.pending
                 omega)
              | (show (updateKey key _ rc.pending).length ≤ r.max_pending
                 rw [length_updateKey]
                 omega)
theorem minKeyByGo_spec {α β : Type} (f : β → Nat) (l : List (α × β))
    (bk : α) (bv : Nat) :
    (minKeyByGo f bk bv l = bk ∧ ∀ p ∈ l, bv ≤ f p.2) ∨
    (∃ v, (minKeyByGo f bk bv l, v) ∈ l ∧ f v ≤ bv ∧ ∀ p ∈ l, f v ≤ f p.2) := by
  induction l generalizing bk bv with
  | nil =>
    left
    exact ⟨rfl, by simp⟩
  | cons hd tl ih =>
    obtain ⟨k, v⟩ := hd
    simp only [minKeyByGo]
    by_cases h : f v < bv
    · rw [if_pos h]
      rcases ih k (f v) with ⟨heq, hmin⟩ | ⟨v', hmem, hle, hmin⟩
      · right
        refine ⟨v, ?_, le_of_lt h, ?_⟩
        · rw [heq]
          exact List.mem_cons_self _ _
        · intro p hp
          rcases List.mem_cons.mp hp with hp | hp
          · rw [hp]
          · exact hmin p hp
      · right
        refine ⟨v', List.mem_cons_of_mem _ hmem, le_trans hle (le_of_lt h), ?_⟩
        intro p hp
        rcases List.mem_cons.mp hp with hp | hp
        · rw [hp]
          exact hle
        · exact hmin p hp
    · rw [if_neg h]
      rcases ih bk bv with ⟨heq, hmin⟩ | ⟨v', hmem, hle, hmin⟩
      · left
        refine ⟨heq, ?_⟩
        intro p hp
        rcases List.mem_cons.mp hp with hp | hp
        · rw [hp]
          show bv ≤ f v
          omega
        · exact hmin p hp
      · right
        refine ⟨v', List.mem_cons_of_mem _ hmem, hle, ?_⟩
        intro p hp
        rcases List.mem_cons.mp hp with hp | hp
        · rw [hp]
          show f v' ≤ f v
          omega
        · exact hmin p hp

theorem minKeyBy_spec {α β : Type} (f : β → Nat) (l : List (α × β)) (k : α)
    (h : minKeyBy f l = some k) :
    ∃ v, (k, v) ∈ l ∧ ∀ p ∈ l, f v ≤ f p.2 := by
  cases l with
  | nil => simp [minKeyBy] at h
  | cons hd tl =>
    obtain ⟨k0, v0⟩ := hd
    simp only [minKeyBy, Option.some.injEq] at h
    rcases minKeyByGo_spec f tl k0 (f v0) with ⟨heq, hmin⟩ | ⟨v', hmem, hle, hmin⟩
    · refine ⟨v0, ?_, ?_⟩
      · rw [← h, heq]
        exact List.mem_cons_self _ _
      · intro p hp
        rcases List.mem_cons.mp hp with hp | hp
        · rw [hp]
        · exact hmin p hp
    · refine ⟨v', ?_, ?_⟩
      · rw [← h]
        exact List.mem_cons_of_mem _ hmem
      · intro p hp
        rcases List.mem_cons.mp hp with hp | hp
        · rw [hp]
          exact le_trans hle (le_refl _)
        · exact hmin p hp

theorem reassembler_reachable_inv (r : Reassembler) (h : ReassemblerReachable r) :
    1 ≤ r.max_pending ∧ r.pending_count ≤ r.max_pending := by
  induction h with
  | new timeout max_pending max_fragments hm =>
    exact ⟨hm, by simp [Reassembler.with_limits, Reassembler.pending_count]⟩
  | add r now source f h ih =>
    refine ⟨?_, ?_⟩
    · rw [Reassembler.add_fragment_max_pending]
      exact ih.1
    · show (r.add_fragment now source f).2.pending.length ≤ _
      rw [Reassembler.add_fragment_max_pending]
      exact Reassembler.add_fragment_len r now source f ih.1 ih.2
  | clear r h ih =>
    exact ⟨ih.1, by simp [Reassembler.clearPending, Reassembler.pending_count]⟩

/-- A one-slot reassembler holding a single pending reassembly, used to
exercise the oldest-entry eviction path at capacity. -/
def oldestEvictionSample : Reassembler :=
  { pending := [(ReassemblyKey.mk [1] 0,
      { fragments := insertKey 0 [7] [], first_sequence := 0,
        last_sequence := none, started := 5 })],
    timeout := 100, max_pending := 1, max_fragments_per_packet := 4 }

/-- C10: for every `Reassembler` built with `max_pending = m ≥ 1` and every
sequence of `add_fragment` calls, the number of pending reassemblies never
exceeds `m`; and when a FIRST fragment with MORE set arrives while `m`
reassemblies are pending (none of them expired), the pending entry with the
earliest `started` timestamp is evicted before the new reassembly is
considered (duplicate check and insertion both act on the erased map). -/
theorem reassembler_pending_bound_and_oldest_eviction :
    (∀ r : Reassembler, ReassemblerReachable r →
      r.pending_count ≤ r.max_pending) ∧
    (∀ (r : Reassembler) (now : Nat) (source : BleAddress) (f : Fragment),
      f.has_valid_flags = true → f.is_first = true → f.has_more = true →
      (∀ p ∈ r.pending, now - p.2.started < r.timeout) →
      r.max_pending ≤ r.pending.length →
      ∀ k, r.find_oldest_pending = some k →
        (∃ v, (k, v) ∈ r.pending ∧
          ∀ p ∈ r.pending, v.started ≤ p.2.started) ∧
        (r.add_fragment now source f).2.pending =
          (if (lookupKey (ReassemblyKey.mk source f.sequence)
              (eraseKey k r.pending)).isSome then
            eraseKey k r.pending
          else
            insertKey (ReassemblyKey.mk source f.sequence)
              { fragments := insertKey f.sequence f.payload [],
                first_sequence := f.sequence, last_sequence := none,
                started := now } (eraseKey k r.pending))) := by
  constructor
  · exact fun r h => (reassembler_reachable_inv r h).2
  · intro r now source f hv hfirst hmore hfresh hcap k hk
    have hk' : minKeyBy (fun p : PendingPacket => p.started) r.pending = some k := hk
    constructor
    · exact minKeyBy_spec (fun p => p.started) r.pending k hk'
    · have hclean : r.cleanup_expired now = r := by
        show ({ r with pending := r.pending.filter _ } : Reassembler) = r
        rw [List.filter_eq_self.mpr (by
          intro p hp
          simpa using hfresh p hp)]
      simp only [Reassembler.add_fragment, hclean]
      rw [show (!f.has_valid_flags) = false by rw [hv]; rfl]
      rw [if_neg Bool.false_ne_true]
      rw [if_pos hfirst]
      rw [show (!f.has_more) = false by rw [hmore]; rfl]
      rw [if_neg Bool.false_ne_true]
      rw [if_pos hcap]
      rw [show r.find_oldest_pending = some k from hk]
      by_cases hlook : (lookupKey (ReassemblyKey.mk source f.sequence)
          (eraseKey k r.pending)).isSome = true
      · rw [if_pos hlook, if_pos hlook]
      · rw [if_neg hlook, if_neg hlook]

/-- Witness: a fresh one-slot reassembler satisfies the bound, and at
capacity a FIRST|MORE fragment (flags 3) from a new source evicts the sole
(hence oldest) pending entry before its own reassembly is inserted. -/
theorem reassembler_pending_bound_and_oldest_eviction_witness :
    (Reassembler.with_limits 100 1 4).pending_count ≤
      (Reassembler.with_limits 100 1 4).max_pending ∧
    ((∃ v, (ReassemblyKey.mk [1] 0, v) ∈ oldestEvictionSample.pending ∧
        ∀ p ∈ oldestEvictionSample.pending, v.started ≤ p.2.started) ∧
      (oldestEvictionSample.add_fragment 10 [2] (Fragment.mk 0 3 [9])).2.pending =
        (if (lookupKey (ReassemblyKey.mk [2] 0)
            (eraseKey (ReassemblyKey.mk [1] 0) oldestEvictionSample.pending)).isSome then
          eraseKey (ReassemblyKey.mk [1] 0) oldestEvictionSample.pending
        else
          insertKey (ReassemblyKey.mk [2] 0)
            { fragments := insertKey 0 [9] [], first_sequence := 0,
              last_sequence := none, started := 10 }
            (eraseKey (ReassemblyKey.mk [1] 0) oldestEvictionSample.pending))) :=
  ⟨reassembler_pending_bound_and_oldest_eviction.1 _
      (ReassemblerReachable.new 100 1 4 (by decide)),
    reassembler_pending_bound_and_oldest_eviction.2 oldestEvictionSample 10 [2]
      (Fragment.mk 0 3 [9]) (by decide) (by decide) (by decide)
      (by decide) (by decide) (ReassemblyKey.mk [1] 0) (by decide)⟩

/-! ## Airtime lemmas -/

theorem calculate_airtime_default_eq0 (pb sf bw : Nat) (hbw : ¬(bw = 0))
    (hde : LoRaParams.low_data_rate_optimize ⟨sf, bw, 5, 8, true, true⟩ = false)
    (hsf : 0 < sf) :
    calculate_airtime_us pb ⟨sf, bw, 5, 8, true, true⟩ =
      (⌊((8:ℚ) + 17/4 + (8 + ((max ⌈(8*(pb:ℚ) - 4*(sf:ℚ) + 44) / (4*(sf:ℚ))⌉ 0 : ℤ) : ℚ) * 5))
        * ((2:ℚ)^sf / (bw:ℚ) * 1000000)⌋).toNat := by
  simp only [calculate_airtime_us, hde]
  rw [if_neg hbw]
  norm_num
  rw [if_pos hsf]
  rw [show (8*(pb:ℚ) - 4*(sf:ℚ) + 28 + 16) = 8*(pb:ℚ) - 4*(sf:ℚ) + 44 by ring]
  congr 1
  ring_nf

theorem calculate_airtime_default_eq1 (pb sf bw : Nat) (hbw : ¬(bw = 0))
    (hde : LoRaParams.low_data_rate_optimize ⟨sf, bw, 5, 8, true, true⟩ = true)
    (hsf : 2 < sf) :
    calculate_airtime_us pb ⟨sf, bw, 5, 8, true, true⟩ =
      (⌊((8:ℚ) + 17/4 + (8 + ((max ⌈(8*(pb:ℚ) - 4*(sf:ℚ) + 44) / (4*((sf:ℚ) - 2))⌉ 0 : ℤ) : ℚ) * 5))
        * ((2:ℚ)^sf / (bw:ℚ) * 1000000)⌋).toNat := by
  simp only [calculate_airtime_us, hde]
  rw [if_neg hbw]
  norm_num
  rw [if_pos hsf]
  rw [show (8*(pb:ℚ) - 4*(sf:ℚ) + 28 + 16) = 8*(pb:ℚ) - 4*(sf:ℚ) + 44 by ring]
  congr 1
  ring_nf

theorem airtime_ceil_step (n d d' : ℚ) (hd : 8 ≤ d) (hd' : 1 ≤ d')
    (hdd : d' ≤ 2*d - 4) :
    max ⌈n / d⌉ 0 ≤ 2 * max ⌈(n - 4) / d'⌉ 0 + 2 := by
  have hR0 : (0:ℤ) ≤ 2 * max ⌈(n - 4) / d'⌉ 0 + 2 := by
    have := le_max_right (⌈(n - 4) / d'⌉) 0
    omega
  rcases le_or_lt ⌈n / d⌉ 2 with hc | hc
  · exact max_le (by omega) (by omega)
  · have hd0 : (0:ℚ) < d := by linarith
    have hd'0 : (0:ℚ) < d' := by linarith
    have h2d : (0:ℚ) < 2*d - 4 := by linarith
    have hnd : (2:ℚ) < n / d := by
      have := Int.lt_ceil.mp (show (2:ℤ) < ⌈n / d⌉ from hc)
      exact_mod_cast this
    have hn : 2*d < n := by
      rw [lt_div_iff₀ hd0] at hnd
      linarith
    have hn4 : (0:ℚ) < n - 4 := by linarith
    set q : ℚ := (n - 4) / (2*d - 4) with hqdef
    have hq : q * (2*d - 4) = n - 4 := div_mul_cancel₀ _ (ne_of_gt h2d)
    have hq0 : 0 < q := div_pos hn4 h2d
    have h2 : n / d ≤ 2 * q + 2 := by
      rw [div_le_iff₀ hd0]
      have hexp : (2*q + 2) * d = (q * (2*d - 4)) + 4*q + 2*d := by ring
      rw [hexp, hq]
      linarith
    have h3 : q ≤ (n - 4) / d' := by
      rw [hqdef]
      exact div_le_div_of_nonneg_left (le_of_lt hn4) hd'0 hdd
    have h4 : (n - 4) / d' ≤ ((max ⌈(n - 4) / d'⌉ 0 : ℤ) : ℚ) := by
      refine le_trans (Int.le_ceil _) ?_
      exact_mod_cast le_max_left (⌈(n - 4) / d'⌉) 0
    have h5 : n / d ≤ ((2 * max ⌈(n - 4) / d'⌉ 0 + 2 : ℤ) : ℚ) := by
      push_cast
      push_cast at h4
      linarith
    have h6 : ⌈n / d⌉ ≤ 2 * max ⌈(n - 4) / d'⌉ 0 + 2 := Int.ceil_le.mpr h5
    exact max_le h6 hR0

theorem airtime_ceil_anti (n d1 d2 : ℚ) (hd1 : 0 < d1) (hdd : d1 ≤ d2) :
    max ⌈n / d2⌉ 0 ≤ max ⌈n / d1⌉ 0 := by
  rcases le_or_lt 0 n with hn | hn
  · have hd2 : 0 < d2 := lt_of_lt_of_le hd1 hdd
    have : n / d2 ≤ n / d1 := div_le_div_of_nonneg_left hn hd1 hdd
    have := Int.ceil_le_ceil this
    omega
  · have hd2 : 0 < d2 := lt_of_lt_of_le hd1 hdd
    have h1 : n / d2 ≤ 0 := le_of_lt (div_neg_of_neg_of_pos hn hd2)
    have h2 : ⌈n / d2⌉ ≤ 0 := Int.ceil_le.mpr (by push_cast; linarith)
    have := le_max_right (⌈n / d1⌉) 0
    omega

theorem airtime_floor_step (a b : ℤ) (t t' : ℚ) (ha : 0 ≤ a) (hb : 0 ≤ b)
    (hab : a ≤ 2*b + 2) (ht : 256 ≤ t) (ht' : t' = 2*t) :
    ((⌊((8:ℚ) + 17/4 + (8 + (a:ℚ) * 5)) * t⌋ : ℤ)).toNat <
      (⌊((8:ℚ) + 17/4 + (8 + (b:ℚ) * 5)) * t'⌋ : ℤ).toNat := by
  subst ht'
  have habQ : (a:ℚ) ≤ 2*(b:ℚ) + 2 := by exact_mod_cast hab
  have haQ : (0:ℚ) ≤ (a:ℚ) := by exact_mod_cast ha
  have hbQ : (0:ℚ) ≤ (b:ℚ) := by exact_mod_cast hb
  have ht0 : (0:ℚ) ≤ t := by linarith
  have hdiff : ((8:ℚ) + 17/4 + (8 + (b:ℚ) * 5)) * (2*t) -
      ((8:ℚ) + 17/4 + (8 + (a:ℚ) * 5)) * t = t * (81/4 + 10*(b:ℚ) - 5*(a:ℚ)) := by
    ring
  have hkey : (41/4 : ℚ) ≤ 81/4 + 10*(b:ℚ) - 5*(a:ℚ) := by linarith
  have hmul : (256:ℚ) * (41/4) ≤ t * (81/4 + 10*(b:ℚ) - 5*(a:ℚ)) :=
    mul_le_mul ht hkey (by norm_num) ht0
  have h1 : ((8:ℚ) + 17/4 + (8 + (a:ℚ) * 5)) * t + 1 ≤
      ((8:ℚ) + 17/4 + (8 + (b:ℚ) * 5)) * (2*t) := by
    nlinarith
  have h2 : ⌊((8:ℚ) + 17/4 + (8 + (a:ℚ) * 5)) * t⌋ <
      ⌊((8:ℚ) + 17/4 + (8 + (b:ℚ) * 5)) * (2*t)⌋ := by
    have h3 := Int.floor_le_floor h1
    rw [show ((8:ℚ) + 17/4 + (8 + (a:ℚ) * 5)) * t + 1 =
      ((8:ℚ) + 17/4 + (8 + (a:ℚ) * 5)) * t + ((1:ℤ):ℚ) by norm_num] at h3
    rw [Int.floor_add_int] at h3
    omega
  have h0 : (0:ℤ) ≤ ⌊((8:ℚ) + 17/4 + (8 + (a:ℚ) * 5)) * t⌋ := by
    apply Int.floor_nonneg.mpr
    have : (0:ℚ) ≤ (8 + 17/4 + (8 + (a:ℚ) * 5)) := by linarith
    positivity
  omega

theorem airtime_floor_step_bw (a b : ℤ) (t1 t2 : ℚ) (_ha : 0 ≤ a) (hb : 0 ≤ b)
    (hba : b ≤ a) (ht2 : 256 ≤ t2) (h12 : 2*t2 ≤ t1) :
    ((⌊((8:ℚ) + 17/4 + (8 + (b:ℚ) * 5)) * t2⌋ : ℤ)).toNat <
      (⌊((8:ℚ) + 17/4 + (8 + (a:ℚ) * 5)) * t1⌋ : ℤ).toNat := by
  have hbaQ : (b:ℚ) ≤ (a:ℚ) := by exact_mod_cast hba
  have hbQ : (0:ℚ) ≤ (b:ℚ) := by exact_mod_cast hb
  have ht20 : (0:ℚ) ≤ t2 := by linarith
  have h1 : ((8:ℚ) + 17/4 + (8 + (b:ℚ) * 5)) * t2 + 1 ≤
      ((8:ℚ) + 17/4 + (8 + (a:ℚ) * 5)) * t1 := by
    have hc1 : ((8:ℚ) + 17/4 + (8 + (b:ℚ) * 5)) * t1 ≤
        ((8:ℚ) + 17/4 + (8 + (a:ℚ) * 5)) * t1 := by
      have ht10 : (0:ℚ) ≤ t1 := by linarith
      have : ((8:ℚ) + 17/4 + (8 + (b:ℚ) * 5)) ≤ (8 + 17/4 + (8 + (a:ℚ) * 5)) := by
        linarith
      exact mul_le_mul_of_nonneg_right this ht10
    have hc2 : ((8:ℚ) + 17/4 + (8 + (b:ℚ) * 5)) * (2*t2) ≤
        ((8:ℚ) + 17/4 + (8 + (b:ℚ) * 5)) * t1 := by
      apply mul_le_mul_of_nonneg_left h12
      linarith
    have hc3 : ((8:ℚ) + 17/4 + (8 + (b:ℚ) * 5)) * t2 + 1 ≤
        ((8:ℚ) + 17/4 + (8 + (b:ℚ) * 5)) * (2*t2) := by
      have : (256:ℚ) * (81/4) ≤ t2 * (81/4 + 5*(b:ℚ)) := by
        apply mul_le_mul ht2 (by linarith) (by norm_num) ht20
      nlinarith
    linarith
  have h2 : ⌊((8:ℚ) + 17/4 + (8 + (b:ℚ) * 5)) * t2⌋ <
      ⌊((8:ℚ) + 17/4 + (8 + (a:ℚ) * 5)) * t1⌋ := by
    have h3 := Int.floor_le_floor h1
    rw [show ((8:ℚ) + 17/4 + (8 + (b:ℚ) * 5)) * t2 + 1 =
      ((8:ℚ) + 17/4 + (8 + (b:ℚ) * 5)) * t2 + ((1:ℤ):ℚ) by norm_num] at h3
    rw [Int.floor_add_int] at h3
    omega
  have h0 : (0:ℤ) ≤ ⌊((8:ℚ) + 17/4 + (8 + (b:ℚ) * 5)) * t2⌋ := by
    apply Int.floor_nonneg.mpr
    have : (0:ℚ) ≤ (8 + 17/4 + (8 + (b:ℚ) * 5)) := by linarith
    positivity
  omega

theorem calculate_airtime_us_payload_mono (p : LoRaParams) (pb1 pb2 : Nat)
    (h : pb1 ≤ pb2) :
    calculate_airtime_us pb1 p ≤ calculate_airtime_us pb2 p := by
  have hpb : (pb1:ℚ) ≤ (pb2:ℚ) := by exact_mod_cast h
  simp only [calculate_airtime_us]
  split
  · exact le_refl _
  · apply Int.toNat_le_toNat
    apply Int.floor_le_floor
    apply add_le_add_left
    apply mul_le_mul_of_nonneg_right _ (by positivity :
      (0:ℚ) ≤ 2 ^ p.spreading_factor / (p.bandwidth_hz:ℚ) * 1000000)
    split
    · split
      · rename_i hde hden
        gcongr
      · exact le_refl _
    · split
      · rename_i hde hden
        gcongr
      · exact le_refl _

theorem calculate_airtime_us_sf_strict (pb sf bw : Nat) (h7 : 7 ≤ sf)
    (h12 : sf < 12) (hbw : bw = 125000 ∨ bw = 250000 ∨ bw = 500000) :
    calculate_airtime_us pb ⟨sf, bw, 5, 8, true, true⟩ <
      calculate_airtime_us pb ⟨sf + 1, bw, 5, 8, true, true⟩ := by
  rcases hbw with rfl | rfl | rfl
  · interval_cases sf
    · rw [calculate_airtime_default_eq0 pb 7 125000 (by norm_num) (by decide) (by norm_num),
          calculate_airtime_default_eq0 pb (7 + 1) 125000 (by norm_num) (by decide) (by norm_num)]
      have hc := airtime_ceil_step (8*(pb:ℚ) - 4*((7:ℕ):ℚ) + 44)
        (4*((7:ℕ):ℚ)) (4*(((7 + 1):ℕ):ℚ)) (by norm_num) (by norm_num) (by norm_num)
      rw [show (8*(pb:ℚ) - 4*((7:ℕ):ℚ) + 44) - 4 =
        8*(pb:ℚ) - 4*(((7 + 1):ℕ):ℚ) + 44 by push_cast; ring] at hc
      exact airtime_floor_step _ _ _ _ (le_max_right _ _) (le_max_right _ _)
        hc (by norm_num) (by push_cast; norm_num)
    · rw [calculate_airtime_default_eq0 pb 8 125000 (by norm_num) (by decide) (by norm_num),
          calculate_airtime_default_eq0 pb (8 + 1) 125000 (by norm_num) (by decide) (by norm_num)]
      have hc := airtime_ceil_step (8*(pb:ℚ) - 4*((8:ℕ):ℚ) + 44)
        (4*((8:ℕ):ℚ)) (4*(((8 + 1):ℕ):ℚ)) (by norm_num) (by norm_num) (by norm_num)
      rw [show (8*(pb:ℚ) - 4*((8:ℕ):ℚ) + 44) - 4 =
        8*(pb:ℚ) - 4*(((8 + 1):ℕ):ℚ) + 44 by push_cast; ring] at hc
      exact airtime_floor_step _ _ _ _ (le_max_right _ _) (le_max_right _ _)
        hc (by norm_num) (by push_cast; norm_num)
    · rw [calculate_airtime_default_eq0 pb 9 125000 (by norm_num) (by decide) (by norm_num),
          calculate_airtime_default_eq0 pb (9 + 1) 125000 (by norm_num) (by decide) (by norm_num)]
      have hc := airtime_ceil_step (8*(pb:ℚ) - 4*((9:ℕ):ℚ) + 44)
        (4*((9:ℕ):ℚ)) (4*(((9 + 1):ℕ):ℚ)) (by norm_num) (by norm_num) (by norm_num)
      rw [show (8*(pb:ℚ) - 4*((9:ℕ):ℚ) + 44) - 4 =
        8*(pb:ℚ) - 4*(((9 + 1):ℕ):ℚ) + 44 by push_cast; ring] at hc
      exact airtime_floor_step _ _ _ _ (le_max_right _ _) (le_max_right _ _)
        hc (by norm_num) (by push_cast; norm_num)
    · rw [calculate_airtime_default_eq0 pb 10 125000 (by norm_num) (by decide) (by norm_num),
          calculate_airtime_default_eq1 pb (10 + 1) 125000 (by norm_num) (by decide) (by norm_num)]
      have hc := airtime_ceil_step (8*(pb:ℚ) - 4*((10:ℕ):ℚ) + 44)
        (4*((10:ℕ):ℚ)) (4*((((10 + 1):ℕ):ℚ) - 2)) (by norm_num) (by norm_num) (by norm_num)
      rw [show (8*(pb:ℚ) - 4*((10:ℕ):ℚ) + 44) - 4 =
        8*(pb:ℚ) - 4*(((10 + 1):ℕ):ℚ) + 44 by push_cast; ring] at hc
      exact airtime_floor_step _ _ _ _ (le_max_right _ _) (le_max_right _ _)
        hc (by norm_num) (by push_cast; norm_num)
    · rw [calculate_airtime_default_eq1 pb 11 125000 (by norm_num) (by decide) (by norm_num),
          calculate_airtime_default_eq1 pb (11 + 1) 125000 (by norm_num) (by decide) (by norm_num)]
      have hc := airtime_ceil_step (8*(pb:ℚ) - 4*((11:ℕ):ℚ) + 44)
        (4*(((11:ℕ):ℚ) - 2)) (4*((((11 + 1):ℕ):ℚ) - 2)) (by norm_num) (by norm_num) (by norm_num)
      rw [show (8*(pb:ℚ) - 4*((11:ℕ):ℚ) + 44) - 4 =
        8*(pb:ℚ) - 4*(((11 + 1):ℕ):ℚ) + 44 by push_cast; ring] at hc
      exact airtime_floor_step _ _ _ _ (le_max_right _ _) (le_max_right _ _)
        hc (by norm_num) (by push_cast; norm_num)
  · interval_cases sf
    · rw [calculate_airtime_default_eq0 pb 7 250000 (by norm_num) (by decide) (by norm_num),
          calculate_airtime_default_eq0 pb (7 + 1) 250000 (by norm_num) (by decide) (by norm_num)]
      have hc := airtime_ceil_step (8*(pb:ℚ) - 4*((7:ℕ):ℚ) + 44)
        (4*((7:ℕ):ℚ)) (4*(((7 + 1):ℕ):ℚ)) (by norm_num) (by norm_num) (by norm_num)
      rw [show (8*(pb:ℚ) - 4*((7:ℕ):ℚ) + 44) - 4 =
        8*(pb:ℚ) - 4*(((7 + 1):ℕ):ℚ) + 44 by push_cast; ring] at hc
      exact airtime_floor_step _ _ _ _ (le_max_right _ _) (le_max_right _ _)
        hc (by norm_num) (by push_cast; norm_num)
    · rw [calculate_airtime_default_eq0 pb 8 250000 (by norm_num) (by decide) (by norm_num),
          calculate_airtime_default_eq0 pb (8 + 1) 250000 (by norm_num) (by decide) (by norm_num)]
      have hc := airtime_ceil_step (8*(pb:ℚ) - 4*((8:ℕ):ℚ) + 44)
        (4*((8:ℕ):ℚ)) (4*(((8 + 1):ℕ):ℚ)) (by norm_num) (by norm_num) (by norm_num)
      rw [show (8*(pb:ℚ) - 4*((8:ℕ):ℚ) + 44) - 4 =
        8*(pb:ℚ) - 4*(((8 + 1):ℕ):ℚ) + 44 by push_cast; ring] at hc
      exact airtime_floor_step _ _ _ _ (le_max_right _ _) (le_max_right _ _)
        hc (by norm_num) (by push_cast; norm_num)
    · rw [calculate_airtime_default_eq0 pb 9 250000 (by norm_num) (by decide) (by norm_num),
          calculate_airtime_default_eq0 pb (9 + 1) 250000 (by norm_num) (by decide) (by norm_num)]
      have hc := airtime_ceil_step (8*(pb:ℚ) - 4*((9:ℕ):ℚ) + 44)
        (4*((9:ℕ):ℚ)) (4*(((9 + 1):ℕ):ℚ)) (by norm_num) (by norm_num) (by norm_num)
      rw [show (8*(pb:ℚ) - 4*((9:ℕ):ℚ) + 44) - 4 =
        8*(pb:ℚ) - 4*(((9 + 1):ℕ):ℚ) + 44 by push_cast; ring] at hc
      exact airtime_floor_step _ _ _ _ (le_max_right _ _) (le_max_right _ _)
        hc (by norm_num) (by push_cast; norm_num)
    · rw [calculate_airtime_default_eq0 pb 10 250000 (by norm_num) (by decide) (by norm_num),
          calculate_airtime_default_eq0 pb (10 + 1) 250000 (by norm_num) (by decide) (by norm_num)]
      have hc := airtime_ceil_step (8*(pb:ℚ) - 4*((10:ℕ):ℚ) + 44)
        (4*((10:ℕ):ℚ)) (4*(((10 + 1):ℕ):ℚ)) (by norm_num) (by norm_num) (by norm_num)
      rw [show (8*(pb:ℚ) - 4*((10:ℕ):ℚ) + 44) - 4 =
        8*(pb:ℚ) - 4*(((10 + 1):ℕ):ℚ) + 44 by push_cast; ring] at hc
      exact airtime_floor_step _ _ _ _ (le_max_right _ _) (le_max_right _ _)
        hc (by norm_num) (by push_cast; norm_num)
    · rw [calculate_airtime_default_eq0 pb 11 250000 (by norm_num) (by decide) (by norm_num),
          calculate_airtime_default_eq1 pb (11 + 1) 250000 (by norm_num) (by decide) (by norm_num)]
      have hc := airtime_ceil_step (8*(pb:ℚ) - 4*((11:ℕ):ℚ) + 44)
        (4*((11:ℕ):ℚ)) (4*((((11 + 1):ℕ):ℚ) - 2)) (by norm_num) (by norm_num) (by norm_num)
      rw [show (8*(pb:ℚ) - 4*((11:ℕ):ℚ) + 44) - 4 =
        8*(pb:ℚ) - 4*(((11 + 1):ℕ):ℚ) + 44 by push_cast; ring] at hc
      exact airtime_floor_step _ _ _ _ (le_max_right _ _) (le_max_right _ _)
        hc (by norm_num) (by push_cast; norm_num)
  · interval_cases sf
    · rw [calculate_airtime_default_eq0 pb 7 500000 (by norm_num) (by decide) (by norm_num),
          calculate_airtime_default_eq0 pb (7 + 1) 500000 (by norm_num) (by decide) (by norm_num)]
      have hc := airtime_ceil_step (8*(pb:ℚ) - 4*((7:ℕ):ℚ) + 44)
        (4*((7:ℕ):ℚ)) (4*(((7 + 1):ℕ):ℚ)) (by norm_num) (by norm_num) (by norm_num)
      rw [show (8*(pb:ℚ) - 4*((7:ℕ):ℚ) + 44) - 4 =
        8*(pb:ℚ) - 4*(((7 + 1):ℕ):ℚ) + 44 by push_cast; ring] at hc
      exact airtime_floor_step _ _ _ _ (le_max_right _ _) (le_max_right _ _)
        hc (by norm_num) (by push_cast; norm_num)
    · rw [calculate_airtime_default_eq0 pb 8 500000 (by norm_num) (by decide) (by norm_num),
          calculate_airtime_default_eq0 pb (8 + 1) 500000 (by norm_num) (by decide) (by norm_num)]
      have hc := airtime_ceil_step (8*(pb:ℚ) - 4*((8:ℕ):ℚ) + 44)
        (4*((8:ℕ):ℚ)) (4*(((8 + 1):ℕ):ℚ)) (by norm_num) (by norm_num) (by norm_num)
      rw [show (8*(pb:ℚ) - 4*((8:ℕ):ℚ) + 44) - 4 =
        8*(pb:ℚ) - 4*(((8 + 1):ℕ):ℚ) + 44 by push_cast; ring] at hc
      exact airtime_floor_step _ _ _ _ (le_max_right _ _) (le_max_right _ _)
        hc (by norm_num) (by push_cast; norm_num)
    · rw [calculate_airtime_default_eq0 pb 9 500000 (by norm_num) (by decide) (by norm_num),
          calculate_airtime_default_eq0 pb (9 + 1) 500000 (by norm_num) (by decide) (by norm_num)]
      have hc := airtime_ceil_step (8*(pb:ℚ) - 4*((9:ℕ):ℚ) + 44)
        (4*((9:ℕ):ℚ)) (4*(((9 + 1):ℕ):ℚ)) (by norm_num) (by norm_num) (by norm_num)
      rw [show (8*(pb:ℚ) - 4*((9:ℕ):ℚ) + 44) - 4 =
        8*(pb:ℚ) - 4*(((9 + 1):ℕ):ℚ) + 44 by push_cast; ring] at hc
      exact airtime_floor_step _ _ _ _ (le_max_right _ _) (le_max_right _ _)
        hc (by norm_num) (by push_cast; norm_num)
    · rw [calculate_airtime_default_eq0 pb 10 500000 (by norm_num) (by decide) (by norm_num),
          calculate_airtime_default_eq0 pb (10 + 1) 500000 (by norm_num) (by decide) (by norm_num)]
      have hc := airtime_ceil_step (8*(pb:ℚ) - 4*((10:ℕ):ℚ) + 44)
        (4*((10:ℕ):ℚ)) (4*(((10 + 1):ℕ):ℚ)) (by norm_num) (by norm_num) (by norm_num)
      rw [show (8*(pb:ℚ) - 4*((10:ℕ):ℚ) + 44) - 4 =
        8*(pb:ℚ) - 4*(((10 + 1):ℕ):ℚ) + 44 by push_cast; ring] at hc
      exact airtime_floor_step _ _ _ _ (le_max_right _ _) (le_max_right _ _)
        hc (by norm_num) (by push_cast; norm_num)
    · rw [calculate_airtime_default_eq0 pb 11 500000 (by norm_num) (by decide) (by norm_num),
          calculate_airtime_default_eq0 pb (11 + 1) 500000 (by norm_num) (by decide) (by norm_num)]
      have hc := airtime_ceil_step (8*(pb:ℚ) - 4*((11:ℕ):ℚ) + 44)
        (4*((11:ℕ):ℚ)) (4*(((11 + 1):ℕ):ℚ)) (by norm_num) (by norm_num) (by norm_num)
      rw [show (8*(pb:ℚ) - 4*((11:ℕ):ℚ) + 44) - 4 =
        8*(pb:ℚ) - 4*(((11 + 1):ℕ):ℚ) + 44 by push_cast; ring] at hc
      exact airtime_floor_step _ _ _ _ (le_max_right _ _) (le_max_right _ _)
        hc (by norm_num) (by push_cast; norm_num)

theorem calculate_airtime_us_bw_strict (pb sf bw1 bw2 : Nat) (h7 : 7 ≤ sf)
    (h12 : sf ≤ 12) (hbw1 : bw1 = 125000 ∨ bw1 = 250000 ∨ bw1 = 500000)
    (hbw2 : bw2 = 125000 ∨ bw2 = 250000 ∨ bw2 = 500000) (hlt : bw1 < bw2) :
    calculate_airtime_us pb ⟨sf, bw2, 5, 8, true, true⟩ <
      calculate_airtime_us pb ⟨sf, bw1, 5, 8, true, true⟩ := by
  rcases hbw1 with rfl | rfl | rfl <;> rcases hbw2 with rfl | rfl | rfl
  · omega
  · interval_cases sf
    · rw [calculate_airtime_default_eq0 pb 7 250000 (by norm_num) (by decide) (by norm_num),
          calculate_airtime_default_eq0 pb 7 125000 (by norm_num) (by decide) (by norm_num)]
      exact airtime_floor_step_bw _ _ _ _ (le_max_right _ _) (le_max_right _ _)
        (airtime_ceil_anti (8*(pb:ℚ) - 4*((7:ℕ):ℚ) + 44)
          (4*((7:ℕ):ℚ)) (4*((7:ℕ):ℚ)) (by norm_num) (by norm_num))
        (by norm_num) (by norm_num)
    · rw [calculate_airtime_default_eq0 pb 8 250000 (by norm_num) (by decide) (by norm_num),
          calculate_airtime_default_eq0 pb 8 125000 (by norm_num) (by decide) (by norm_num)]
      exact airtime_floor_step_bw _ _ _ _ (le_max_right _ _) (le_max_right _ _)
        (airtime_ceil_anti (8*(pb:ℚ) - 4*((8:ℕ):ℚ) + 44)
          (4*((8:ℕ):ℚ)) (4*((8:ℕ):ℚ)) (by norm_num) (by norm_num))
        (by norm_num) (by norm_num)
    · rw [calculate_airtime_default_eq0 pb 9 250000 (by norm_num) (by decide) (by norm_num),
          calculate_airtime_default_eq0 pb 9 125000 (by norm_num) (by decide) (by norm_num)]
      exact airtime_floor_step_bw _ _ _ _ (le_max_right _ _) (le_max_right _ _)
        (airtime_ceil_anti (8*(pb:ℚ) - 4*((9:ℕ):ℚ) + 44)
          (4*((9:ℕ):ℚ)) (4*((9:ℕ):ℚ)) (by norm_num) (by norm_num))
        (by norm_num) (by norm_num)
    · rw [calculate_airtime_default_eq0 pb 10 250000 (by norm_num) (by decide) (by norm_num),
          calculate_airtime_default_eq0 pb 10 125000 (by norm_num) (by decide) (by norm_num)]
      exact airtime_floor_step_bw _ _ _ _ (le_max_right _ _) (le_max_right _ _)
        (airtime_ceil_anti (8*(pb:ℚ) - 4*((10:ℕ):ℚ) + 44)
          (4*((10:ℕ):ℚ)) (4*((10:ℕ):ℚ)) (by norm_num) (by norm_num))
        (by norm_num) (by norm_num)
    · rw [calculate_airtime_default_eq0 pb 11 250000 (by norm_num) (by decide) (by norm_num),
          calculate_airtime_default_eq1 pb 11 125000 (by norm_num) (by decide) (by norm_num)]
      exact airtime_floor_step_bw _ _ _ _ (le_max_right _ _) (le_max_right _ _)
        (airtime_ceil_anti (8*(pb:ℚ) - 4*((11:ℕ):ℚ) + 44)
          (4*(((11:ℕ):ℚ) - 2)) (4*((11:ℕ):ℚ)) (by norm_num) (by norm_num))
        (by norm_num) (by norm_num)
    · rw [calculate_airtime_default_eq1 pb 12 250000 (by norm_num) (by decide) (by norm_num),
          calculate_airtime_default_eq1 pb 12 125000 (by norm_num) (by decide) (by norm_num)]
      exact airtime_floor_step_bw _ _ _ _ (le_max_right _ _) (le_max_right _ _)
        (airtime_ceil_anti (8*(pb:ℚ) - 4*((12:ℕ):ℚ) + 44)
          (4*(((12:ℕ):ℚ) - 2)) (4*(((12:ℕ):ℚ) - 2)) (by norm_num) (by norm_num))
        (by norm_num) (by norm_num)
  · interval_cases sf
    · rw [calculate_airtime_default_eq0 pb 7 500000 (by norm_num) (by decide) (by norm_num),
          calculate_airtime_default_eq0 pb 7 125000 (by norm_num) (by decide) (by norm_num)]
      exact airtime_floor_step_bw _ _ _ _ (le_max_right _ _) (le_max_right _ _)
        (airtime_ceil_anti (8*(pb:ℚ) - 4*((7:ℕ):ℚ) + 44)
          (4*((7:ℕ):ℚ)) (4*((7:ℕ):ℚ)) (by norm_num) (by norm_num))
        (by norm_num) (by norm_num)
    · rw [calculate_airtime_default_eq0 pb 8 500000 (by norm_num) (by decide) (by norm_num),
          calculate_airtime_default_eq0 pb 8 125000 (by norm_num) (by decide) (by norm_num)]
      exact airtime_floor_step_bw _ _ _ _ (le_max_right _ _) (le_max_right _ _)
        (airtime_ceil_anti (8*(pb:ℚ) - 4*((8:ℕ):ℚ) + 44)
          (4*((8:ℕ):ℚ)) (4*((8:ℕ):ℚ)) (by norm_num) (by norm_num))
        (by norm_num) (by norm_num)
    · rw [calculate_airtime_default_eq0 pb 9 500000 (by norm_num) (by decide) (by norm_num),
          calculate_airtime_default_eq0 pb 9 125000 (by norm_num) (by decide) (by norm_num)]
      exact airtime_floor_step_bw _ _ _ _ (le_max_right _ _) (le_max_right _ _)
        (airtime_ceil_anti (8*(pb:ℚ) - 4*((9:ℕ):ℚ) + 44)
          (4*((9:ℕ):ℚ)) (4*((9:ℕ):ℚ)) (by norm_num) (by norm_num))
        (by norm_num) (by norm_num)
    · rw [calculate_airtime_default_eq0 pb 10 500000 (by norm_num) (by decide) (by norm_num),
          calculate_airtime_default_eq0 pb 10 125000 (by norm_num) (by decide) (by norm_num)]
      exact airtime_floor_step_bw _ _ _ _ (le_max_right _ _) (le_max_right _ _)
        (airtime_ceil_anti (8*(pb:ℚ) - 4*((10:ℕ):ℚ) + 44)
          (4*((10:ℕ):ℚ)) (4*((10:ℕ):ℚ)) (by norm_num) (by norm_num))
        (by norm_num) (by norm_num)
    · rw [calculate_airtime_default_eq0 pb 11 500000 (by norm_num) (by decide) (by norm_num),
          calculate_airtime_default_eq1 pb 11 125000 (by norm_num) (by decide) (by norm_num)]
      exact airtime_floor_step_bw _ _ _ _ (le_max_right _ _) (le_max_right _ _)
        (airtime_ceil_anti (8*(pb:ℚ) - 4*((11:ℕ):ℚ) + 44)
          (4*(((11:ℕ):ℚ) - 2)) (4*((11:ℕ):ℚ)) (by norm_num) (by norm_num))
        (by norm_num) (by norm_num)
    · rw [calculate_airtime_default_eq0 pb 12 500000 (by norm_num) (by decide) (by norm_num),
          calculate_airtime_default_eq1 pb 12 125000 (by norm_num) (by decide) (by norm_num)]
      exact airtime_floor_step_bw _ _ _ _ (le_max_right _ _) (le_max_right _ _)
        (airtime_ceil_anti (8*(pb:ℚ) - 4*((12:ℕ):ℚ) + 44)
          (4*(((12:ℕ):ℚ) - 2)) (4*((12:ℕ):ℚ)) (by norm_num) (by norm_num))
        (by norm_num) (by norm_num)
  · omega
  · omega
  · interval_cases sf
    · rw [calculate_airtime_default_eq0 pb 7 500000 (by norm_num) (by decide) (by norm_num),
          calculate_airtime_default_eq0 pb 7 250000 (by norm_num) (by decide) (by norm_num)]
      exact airtime_floor_step_bw _ _ _ _ (le_max_right _ _) (le_max_right _ _)
        (airtime_ceil_anti (8*(pb:ℚ) - 4*((7:ℕ):ℚ) + 44)
          (4*((7:ℕ):ℚ)) (4*((7:ℕ):ℚ)) (by norm_num) (by norm_num))
        (by norm_num) (by norm_num)
    · rw [calculate_airtime_default_eq0 pb 8 500000 (by norm_num) (by decide) (by norm_num),
          calculate_airtime_default_eq0 pb 8 250000 (by norm_num) (by decide) (by norm_num)]
      exact airtime_floor_step_bw _ _ _ _ (le_max_right _ _) (le_max_right _ _)
        (airtime_ceil_anti (8*(pb:ℚ) - 4*((8:ℕ):ℚ) + 44)
          (4*((8:ℕ):ℚ)) (4*((8:ℕ):ℚ)) (by norm_num) (by norm_num))
        (by norm_num) (by norm_num)
    · rw [calculate_airtime_default_eq0 pb 9 500000 (by norm_num) (by decide) (by norm_num),
          calculate_airtime_default_eq0 pb 9 250000 (by norm_num) (by decide) (by norm_num)]
      exact airtime_floor_step_bw _ _ _ _ (le_max_right _ _) (le_max_right _ _)
        (airtime_ceil_anti (8*(pb:ℚ) - 4*((9:ℕ):ℚ) + 44)
          (4*((9:ℕ):ℚ)) (4*((9:ℕ):ℚ)) (by norm_num) (by norm_num))
        (by norm_num) (by norm_num)
    · rw [calculate_airtime_default_eq0 pb 10 500000 (by norm_num) (by decide) (by norm_num),
          calculate_airtime_default_eq0 pb 10 250000 (by norm_num) (by decide) (by norm_num)]
      exact airtime_floor_step_bw _ _ _ _ (le_max_right _ _) (le_max_right _ _)
        (airtime_ceil_anti (8*(pb:ℚ) - 4*((10:ℕ):ℚ) + 44)
          (4*((10:ℕ):ℚ)) (4*((10:ℕ):ℚ)) (by norm_num) (by norm_num))
        (by norm_num) (by norm_num)
    · rw [calculate_airtime_default_eq0 pb 11 500000 (by norm_num) (by decide) (by norm_num),
          calculate_airtime_default_eq0 pb 11 250000 (by norm_num) (by decide) (by norm_num)]
      exact airtime_floor_step_bw _ _ _ _ (le_max_right _ _) (le_max_right _ _)
        (airtime_ceil_anti (8*(pb:ℚ) - 4*((11:ℕ):ℚ) + 44)
          (4*((11:ℕ):ℚ)) (4*((11:ℕ):ℚ)) (by norm_num) (by norm_num))
        (by norm_num) (by norm_num)
    · rw [calculate_airtime_default_eq0 pb 12 500000 (by norm_num) (by decide) (by norm_num),
          calculate_airtime_default_eq1 pb 12 250000 (by norm_num) (by decide) (by norm_num)]
      exact airtime_floor_step_bw _ _ _ _ (le_max_right _ _) (le_max_right _ _)
        (airtime_ceil_anti (8*(pb:ℚ) - 4*((12:ℕ):ℚ) + 44)
          (4*(((12:ℕ):ℚ) - 2)) (4*((12:ℕ):ℚ)) (by norm_num) (by norm_num))
        (by norm_num) (by norm_num)
  · omega
  · omega
  · omega

/-- C5 counterexample: at SF12/125 kHz (the default parameters with
`spreading_factor = 12`), payloads of 12 and 13 bytes give the same
airtime — the ceiling in the payload-symbol count absorbs the extra byte,
so the airtime is not strictly increasing in `payload_bytes`. -/
theorem airtime_payload_not_strict_counterexample :
    calculate_airtime_us 12 { LoRaParams.defaultParams with spreading_factor := 12 } =
      calculate_airtime_us 13 { LoRaParams.defaultParams with spreading_factor := 12 } := by
  rw [show ({ LoRaParams.defaultParams with spreading_factor := 12 } : LoRaParams) =
    ⟨12, 125000, 5, 8, true, true⟩ from rfl]
  rw [calculate_airtime_default_eq1 12 12 125000 (by norm_num) (by decide) (by norm_num),
      calculate_airtime_default_eq1 13 12 125000 (by norm_num) (by decide) (by norm_num)]
  norm_num
  rw [show ⌈(23/10:ℚ)⌉ = (3:ℤ) by rw [Int.ceil_eq_iff]; norm_num,
      show ⌈(5/2:ℚ)⌉ = (3:ℤ) by rw [Int.ceil_eq_iff]; norm_num]

/-- C5: airtime monotonicity as the code actually satisfies it.  At any
parameters, airtime is monotone (non-decreasing) in the payload size; with
the default coding rate 4/5, 8 preamble symbols, explicit header and CRC,
airtime is strictly increasing in the spreading factor across SF7..SF12 at
each standard bandwidth (125/250/500 kHz), and strictly decreasing in the
bandwidth across the standard bandwidths at each SF7..SF12. -/
theorem lora_airtime_monotonicity :
    (∀ (p : LoRaParams) (pb1 pb2 : Nat), pb1 ≤ pb2 →
      calculate_airtime_us pb1 p ≤ calculate_airtime_us pb2 p) ∧
    (∀ (pb sf bw : Nat), 7 ≤ sf → sf < 12 →
      (bw = 125000 ∨ bw = 250000 ∨ bw = 500000) →
      calculate_airtime_us pb ⟨sf, bw, 5, 8, true, true⟩ <
        calculate_airtime_us pb ⟨sf + 1, bw, 5, 8, true, true⟩) ∧
    (∀ (pb sf bw1 bw2 : Nat), 7 ≤ sf → sf ≤ 12 →
      (bw1 = 125000 ∨ bw1 = 250000 ∨ bw1 = 500000) →
      (bw2 = 125000 ∨ bw2 = 250000 ∨ bw2 = 500000) → bw1 < bw2 →
      calculate_airtime_us pb ⟨sf, bw2, 5, 8, true, true⟩ <
        calculate_airtime_us pb ⟨sf, bw1, 5, 8, true, true⟩) :=
  ⟨calculate_airtime_us_payload_mono, calculate_airtime_us_sf_strict,
    calculate_airtime_us_bw_strict⟩

/-- Witness: payload monotonicity at the default parameters, an SF7 to SF8
step at 125 kHz, and a 250 kHz to 125 kHz comparison at SF7. -/
theorem lora_airtime_monotonicity_witness :
    (calculate_airtime_us 10 LoRaParams.defaultParams ≤
      calculate_airtime_us 11 LoRaParams.defaultParams) ∧
    (calculate_airtime_us 10 ⟨7, 125000, 5, 8, true, true⟩ <
      calculate_airtime_us 10 ⟨7 + 1, 125000, 5, 8, true, true⟩) ∧
    (calculate_airtime_us 10 ⟨7, 250000, 5, 8, true, true⟩ <
      calculate_airtime_us 10 ⟨7, 125000, 5, 8, true, true⟩) :=
  ⟨lora_airtime_monotonicity.1 LoRaParams.defaultParams 10 11 (by decide),
    lora_airtime_monotonicity.2.1 10 7 125000 (by decide) (by decide) (Or.inl rfl),
    lora_airtime_monotonicity.2.2 10 7 125000 250000 (by decide) (by decide)
      (Or.inl rfl) (Or.inr (Or.inl rfl)) (by decide)⟩


/-! ## Fragment round-trip lemmas -/

theorem seq_wrap_diff (seq0 i : Nat) (hseq : seq0 < 256) (hi : i < 256) :
    ((seq0 + i) % 256 + 256 - seq0) % 256 = i := by omega

theorem seq_wrap_succ (a : Nat) : (a % 256 + 1) % 256 = (a + 1) % 256 := by omega

theorem seq_wrap_ne (seq0 i j : Nat) (hj : j < i) (hi : i < 256) :
    (seq0 + i) % 256 ≠ (seq0 + j) % 256 := by omega

theorem lookupKey_append_left {α β : Type} [DecidableEq α] (k : α) (v : β)
    (l1 l2 : List (α × β)) (h : lookupKey k l1 = some v) :
    lookupKey k (l1 ++ l2) = some v := by
  induction l1 with
  | nil => simp [lookupKey] at h
  | cons hd tl ih =>
    obtain ⟨ka, va⟩ := hd
    simp only [lookupKey] at h
    by_cases hk : ka = k
    · simp only [List.cons_append, lookupKey, if_pos hk]
      simp only [if_pos hk] at h
      exact h
    · simp only [List.cons_append, lookupKey, if_neg hk]
      simp only [if_neg hk] at h
      exact ih h

theorem lookupKey_range_map_none (seq0 i : Nat) (v : Nat → List Nat) (k : Nat)
    (hk : ∀ t, t < i → k ≠ (seq0 + t) % 256) :
    lookupKey k ((List.range i).map (fun t => ((seq0 + t) % 256, v t))) = none := by
  rw [lookupKey_eq_none_iff]
  intro hmem
  simp only [List.map_map, List.mem_map, List.mem_range] at hmem
  obtain ⟨t, ht, hkey⟩ := hmem
  exact hk t ht hkey.symm

theorem lookupKey_range_map_get (seq0 : Nat)
    (v : Nat → List Nat) (i : Nat) (hi : i ≤ 256) :
    ∀ j, j < i →
      lookupKey ((seq0 + j) % 256)
        ((List.range i).map (fun t => ((seq0 + t) % 256, v t))) = some (v j) := by
  induction i with
  | zero => intro j hj; omega
  | succ i ih =>
    intro j hj
    rw [List.range_succ, List.map_append]
    rcases Nat.lt_or_ge j i with hji | hji
    · exact lookupKey_append_left _ _ _ _ (ih (by omega) j hji)
    · have hj' : j = i := by omega
      subst hj'
      simp only [List.map_cons, List.map_nil]
      exact lookupKey_append_right _ _ _
        (lookupKey_range_map_none seq0 j v _ (fun t ht => seq_wrap_ne seq0 j t ht (by omega)))

theorem chunks_flatten (mp : Nat) : ∀ (n : Nat) (d : List Nat),
    ((List.range n).map (fun j => (d.drop (j * mp)).take mp)).flatten =
      d.take (n * mp) := by
  intro n
  induction n with
  | zero => simp
  | succ n ih =>
    intro d
    rw [List.range_succ_eq_map]
    simp only [List.map_cons, List.map_map, List.flatten_cons, Nat.zero_mul,
      List.drop_zero]
    have hmap : (List.range n).map ((fun j => (d.drop (j * mp)).take mp) ∘ Nat.succ) =
        (List.range n).map (fun j => ((d.drop mp).drop (j * mp)).take mp) := by
      apply List.map_congr_left
      intro t _
      simp only [Function.comp]
      rw [List.drop_drop]
      congr 2
      rw [Nat.succ_mul]
      ring
    rw [hmap, ih]
    rw [show (n + 1) * mp = mp + n * mp by ring]
    rw [List.take_add]

theorem chunk_of_append (mp j : Nat) (d l : List Nat) (h : j * mp + mp ≤ d.length) :
    (((d ++ l).drop (j * mp)).take mp) = ((d.drop (j * mp)).take mp) := by
  rw [List.drop_append_eq_append_drop]
  rw [show j * mp - d.length = 0 by omega]
  rw [List.drop_zero]
  rw [List.take_append_eq_append_take]
  rw [show mp - (d.drop (j * mp)).length = 0 by simp; omega]
  simp

theorem assembleGo_eval (FR : List (Nat × List Nat)) (seq0 n : Nat)
    (g : Nat → List Nat)
    (hlk : ∀ j, j < n → lookupKey ((seq0 + j) % 256) FR = some (g j)) :
    ∀ (steps j : Nat), j + steps = n →
      assembleGo FR ((seq0 + j) % 256) steps =
        some (((List.range steps).map (fun t => g (j + t))).flatten) := by
  intro steps
  induction steps with
  | zero => intro j _; simp [assembleGo]
  | succ steps ih =>
    intro j hj
    simp only [assembleGo]
    rw [hlk j (by omega)]
    rw [seq_wrap_succ, show (seq0 + j) + 1 = seq0 + (j + 1) by ring]
    rw [ih (j + 1) (by omega)]
    have hmap2 : (List.range steps).map ((fun t => g (j + t)) ∘ Nat.succ) =
        (List.range steps).map (fun t => g (j + 1 + t)) := by
      apply List.map_congr_left
      intro t _
      simp only [Function.comp]
      congr 1
      omega
    rw [List.range_succ_eq_map]
    simp only [List.map_cons, List.map_map, List.flatten_cons, Nat.add_zero, hmap2]
    rfl

theorem cleanup_expired_of_fresh (r : Reassembler) (now : Nat)
    (hfresh : ∀ p ∈ r.pending, now - p.2.started < r.timeout) :
    r.cleanup_expired now = r := by
  show ({ r with pending := r.pending.filter _ } : Reassembler) = r
  rw [List.filter_eq_self.mpr (by
    intro p hp
    simpa using hfresh p hp)]

theorem add_fragment_step_more (timeout maxP maxF now seq0 i : Nat)
    (source : BleAddress) (acc : List (Nat × List Nat)) (pl : List Nat)
    (ht : 1 ≤ timeout) (hseq : seq0 < 256) (hi : 0 < i) (hi128 : i < 128)
    (hlen : acc.length = i) (hmaxF : i < maxF)
    (hlknone : lookupKey ((seq0 + i) % 256) acc = none) :
    Reassembler.add_fragment
      { pending := [(⟨source, seq0⟩,
          { fragments := acc, first_sequence := seq0,
            last_sequence := none, started := now })],
        timeout := timeout, max_pending := maxP, max_fragments_per_packet := maxF }
      now source ⟨(seq0 + i) % 256, 2, pl⟩ =
      (none,
        { pending := [(⟨source, seq0⟩,
            { fragments := acc ++ [((seq0 + i) % 256, pl)], first_sequence := seq0,
              last_sequence := none, started := now })],
          timeout := timeout, max_pending := maxP,
          max_fragments_per_packet := maxF }) := by
  have hcl := cleanup_expired_of_fresh
    { pending := [((⟨source, seq0⟩ : ReassemblyKey),
        ({ fragments := acc, first_sequence := seq0,
           last_sequence := none, started := now } : PendingPacket))],
      timeout := timeout, max_pending := maxP, max_fragments_per_packet := maxF }
    now (by
      intro p hp
      simp only [List.mem_singleton] at hp
      subst hp
      simp
      omega)
  have hfk : Reassembler.find_key_for_fragment
      { pending := [(⟨source, seq0⟩,
          { fragments := acc, first_sequence := seq0,
            last_sequence := none, started := now })],
        timeout := timeout, max_pending := maxP, max_fragments_per_packet := maxF }
      source ⟨(seq0 + i) % 256, 2, pl⟩ = some ⟨source, seq0⟩ := by
    simp only [Reassembler.find_key_for_fragment, MAX_SEQUENCE_DISTANCE,
      List.findSome?_cons]
    rw [seq_wrap_diff seq0 i hseq (by omega)]
    simp [hi, hi128]
  have hlkp : lookupKey (⟨source, seq0⟩ : ReassemblyKey)
      [((⟨source, seq0⟩ : ReassemblyKey),
        ({ fragments := acc, first_sequence := seq0,
           last_sequence := none, started := now } : PendingPacket))] =
      some { fragments := acc, first_sequence := seq0,
             last_sequence := none, started := now } := by
    simp [lookupKey]
  simp only [Reassembler.add_fragment, hcl]
  rw [show (Fragment.mk ((seq0 + i) % 256) 2 pl).has_valid_flags = true by
    simp [Fragment.has_valid_flags]]
  rw [show (!true) = false from rfl]
  rw [if_neg Bool.false_ne_true]
  rw [show (Fragment.mk ((seq0 + i) % 256) 2 pl).is_first = false by
    simp [Fragment.is_first]]
  rw [if_neg Bool.false_ne_true]
  rw [hfk]
  simp only [hlkp]
  rw [if_neg (show ¬(maxF ≤ acc.length) by omega)]
  rw [show (Fragment.mk ((seq0 + i) % 256) 2 pl).has_more = true by
    simp [Fragment.has_more]]
  rw [insertKey_of_absent _ _ _ hlknone]
  rw [if_pos rfl]
  rw [show (PendingPacket.mk (acc ++ [((seq0 + i) % 256, pl)]) seq0 none
    now).is_complete = false by simp [PendingPacket.is_complete]]
  rw [if_neg Bool.false_ne_true]
  simp [updateKey]

theorem add_fragment_step_last (timeout maxP maxF now seq0 i : Nat)
    (source : BleAddress) (acc : List (Nat × List Nat)) (pl : List Nat)
    (ht : 1 ≤ timeout) (hseq : seq0 < 256) (hi : 0 < i) (hi128 : i < 128)
    (hlen : acc.length = i) (hmaxF : i < maxF)
    (hlknone : lookupKey ((seq0 + i) % 256) acc = none) :
    Reassembler.add_fragment
      { pending := [(⟨source, seq0⟩,
          { fragments := acc, first_sequence := seq0,
            last_sequence := none, started := now })],
        timeout := timeout, max_pending := maxP, max_fragments_per_packet := maxF }
      now source ⟨(seq0 + i) % 256, 0, pl⟩ =
      (PendingPacket.assemble
        { fragments := acc ++ [((seq0 + i) % 256, pl)], first_sequence := seq0,
          last_sequence := some ((seq0 + i) % 256), started := now },
       { pending := [], timeout := timeout, max_pending := maxP,
         max_fragments_per_packet := maxF }) := by
  have hcl := cleanup_expired_of_fresh
    { pending := [((⟨source, seq0⟩ : ReassemblyKey),
        ({ fragments := acc, first_sequence := seq0,
           last_sequence := none, started := now } : PendingPacket))],
      timeout := timeout, max_pending := maxP, max_fragments_per_packet := maxF }
    now (by
      intro p hp
      simp only [List.mem_singleton] at hp
      subst hp
      simp
      omega)
  have hfk : Reassembler.find_key_for_fragment
      { pending := [(⟨source, seq0⟩,
          { fragments := acc, first_sequence := seq0,
            last_sequence := none, started := now })],
        timeout := timeout, max_pending := maxP, max_fragments_per_packet := maxF }
      source ⟨(seq0 + i) % 256, 0, pl⟩ = some ⟨source, seq0⟩ := by
    simp only [Reassembler.find_key_for_fragment, MAX_SEQUENCE_DISTANCE,
      List.findSome?_cons]
    rw [seq_wrap_diff seq0 i hseq (by omega)]
    simp [hi, hi128]
  have hlkp : lookupKey (⟨source, seq0⟩ : ReassemblyKey)
      [((⟨source, seq0⟩ : ReassemblyKey),
        ({ fragments := acc, first_sequence := seq0,
           last_sequence := none, started := now } : PendingPacket))] =
      some { fragments := acc, first_sequence := seq0,
             last_sequence := none, started := now } := by
    simp [lookupKey]
  simp only [Reassembler.add_fragment, hcl]
  rw [show (Fragment.mk ((seq0 + i) % 256) 0 pl).has_valid_flags = true by
    simp [Fragment.has_valid_flags]]
  rw [show (!true) = false from rfl]
  rw [if_neg Bool.false_ne_true]
  rw [show (Fragment.mk ((seq0 + i) % 256) 0 pl).is_first = false by
    simp [Fragment.is_first]]
  rw [if_neg Bool.false_ne_true]
  rw [hfk]
  simp only [hlkp]
  rw [if_neg (show ¬(maxF ≤ acc.length) by omega)]
  rw [show (Fragment.mk ((seq0 + i) % 256) 0 pl).has_more = false by
    simp [Fragment.has_more]]
  rw [insertKey_of_absent _ _ _ hlknone]
  rw [if_neg Bool.false_ne_true]
  rw [show (PendingPacket.mk (acc ++ [((seq0 + i) % 256, pl)]) seq0
      (some ((seq0 + i) % 256)) now).is_complete = true by
    simp [PendingPacket.is_complete, seq_wrap_diff seq0 i hseq (show i < 256 by omega),
      hlen]
    omega]
  rw [if_pos rfl]
  simp [eraseKey]

theorem add_fragment_first_single (timeout maxP maxF now seq0 : Nat)
    (source : BleAddress) (pl : List Nat) :
    Reassembler.add_fragment (Reassembler.with_limits timeout maxP maxF)
      now source ⟨seq0, 1, pl⟩ =
      (some pl, Reassembler.with_limits timeout maxP maxF) := by
  have hcl := cleanup_expired_of_fresh (Reassembler.with_limits timeout maxP maxF)
    now (by intro p hp; simp [Reassembler.with_limits] at hp)
  simp only [Reassembler.add_fragment, hcl]
  rw [show (Fragment.mk seq0 1 pl).has_valid_flags = true by
    simp [Fragment.has_valid_flags]]
  rw [show (!true) = false from rfl]
  rw [if_neg Bool.false_ne_true]
  rw [show (Fragment.mk seq0 1 pl).is_first = true by simp [Fragment.is_first]]
  rw [if_pos rfl]
  rw [show (Fragment.mk seq0 1 pl).has_more = false by simp [Fragment.has_more]]
  rfl

theorem add_fragment_first_more (timeout maxP maxF now seq0 : Nat)
    (source : BleAddress) (pl : List Nat) (hmaxP : 1 ≤ maxP) :
    Reassembler.add_fragment (Reassembler.with_limits timeout maxP maxF)
      now source ⟨seq0, 3, pl⟩ =
      (none,
        { pending := [(⟨source, seq0⟩,
            { fragments := [(seq0, pl)], first_sequence := seq0,
              last_sequence := none, started := now })],
          timeout := timeout, max_pending := maxP,
          max_fragments_per_packet := maxF }) := by
  have hcl := cleanup_expired_of_fresh (Reassembler.with_limits timeout maxP maxF)
    now (by intro p hp; simp [Reassembler.with_limits] at hp)
  simp only [Reassembler.add_fragment, hcl]
  rw [show (Fragment.mk seq0 3 pl).has_valid_flags = true by
    simp [Fragment.has_valid_flags]]
  rw [show (!true) = false from rfl]
  rw [if_neg Bool.false_ne_true]
  rw [show (Fragment.mk seq0 3 pl).is_first = true by simp [Fragment.is_first]]
  rw [if_pos rfl]
  rw [show (Fragment.mk seq0 3 pl).has_more = true by simp [Fragment.has_more]]
  rw [show (!true) = false from rfl]
  rw [if_neg Bool.false_ne_true]
  rw [if_neg (show ¬((Reassembler.with_limits timeout maxP maxF).max_pending ≤
    (Reassembler.with_limits timeout maxP maxF).pending.length) by
      simp [Reassembler.with_limits]
      omega)]
  rw [show (lookupKey (⟨source, seq0⟩ : ReassemblyKey)
    (Reassembler.with_limits timeout maxP maxF).pending).isSome = false from rfl]
  rw [if_neg Bool.false_ne_true]
  rfl

theorem acc_snoc (mp seq0 i : Nat) (done chunk : List Nat)
    (hdone : done.length = i * mp) (hchunk : chunk.length = mp) :
    (List.range i).map (fun j => ((seq0 + j) % 256, (done.drop (j * mp)).take mp))
      ++ [((seq0 + i) % 256, chunk)] =
    (List.range (i + 1)).map (fun j => ((seq0 + j) % 256,
      (((done ++ chunk).drop (j * mp)).take mp))) := by
  rw [List.range_succ, List.map_append]
  congr 1
  · apply List.map_congr_left
    intro t ht
    simp only [List.mem_range] at ht
    rw [chunk_of_append mp t done chunk (by
      have := Nat.mul_le_mul_right mp (show t + 1 ≤ i by omega)
      rw [Nat.succ_mul] at this
      omega)]
  · simp only [List.map_cons, List.map_nil]
    congr 2
    rw [show i * mp = done.length from hdone.symm, List.drop_left]
    exact (List.take_of_length_le (by omega)).symm

theorem addAll_fragmentGo_inv (mp : Nat) (hmp : 1 ≤ mp)
    (timeout maxP maxF now seq0 : Nat) (source : BleAddress)
    (ht : 1 ≤ timeout) (hseq : seq0 < 256) :
    ∀ (seq : Nat) (first : Bool) (l : List Nat), ∀ (i : Nat) (done : List Nat),
      l ≠ [] → first = false → seq = (seq0 + i) % 256 → 1 ≤ i →
      done.length = i * mp →
      i + (l.length + mp - 1) / mp ≤ 128 →
      i + (l.length + mp - 1) / mp ≤ maxF →
      (Reassembler.addAll
        { pending := [(⟨source, seq0⟩,
            { fragments := (List.range i).map
                (fun j => ((seq0 + j) % 256, (done.drop (j * mp)).take mp)),
              first_sequence := seq0, last_sequence := none, started := now })],
          timeout := timeout, max_pending := maxP,
          max_fragments_per_packet := maxF }
        now source (fragmentGo mp seq first l)).1 =
        List.replicate ((l.length + mp - 1) / mp - 1) none ++ [some (done ++ l)] := by
  intro seq first l
  induction seq, first, l using fragmentGo.induct mp with
  | case1 seq first =>
    intro i done hne _ _ _ _ _ _
    exact absurd rfl hne
  | case2 seq first b bs ih =>
    intro i done _ hfirst hseqeq hi hdone h128 hmaxF
    subst hfirst
    subst hseqeq
    have hnf1 : 1 ≤ (bs.length + 1 + mp - 1) / mp :=
      (Nat.le_div_iff_mul_le (by omega)).mpr (by omega)
    simp only [fragmentGo, List.length_cons]
    simp only [List.length_cons] at h128 hmaxF
    rcases Nat.lt_or_ge mp (bs.length + 1) with hm | hm
    · -- more fragments follow
      have hmore : decide (mp < bs.length + 1) = true := by simp [hm]
      simp only [hmore, FLAG_FIRST_FRAGMENT, FLAG_MORE_FRAGMENTS, if_false,
        if_true, eq_self_iff_true, Bool.false_eq_true, Nat.zero_add]
      have hnf2 : 2 ≤ (bs.length + 1 + mp - 1) / mp :=
        (Nat.le_div_iff_mul_le (by omega)).mpr (by omega)
      have hd1 : bs.length + 1 + mp - 1 = bs.length + mp := by omega
      have hd2 : bs.length - (mp - 1) + mp - 1 = bs.length := by omega
      simp only [Reassembler.addAll]
      rw [add_fragment_step_more timeout maxP maxF now seq0 i source _ _
        ht hseq (by omega) (by omega) (by simp) (by omega)
        (lookupKey_range_map_none seq0 i _ _
          (fun t htl => seq_wrap_ne seq0 i t htl (by omega)))]
      rw [acc_snoc mp seq0 i done (b :: bs.take (mp - 1)) hdone
        (by simp; omega)]
      simp only [ih (i + 1) (done ++ (b :: bs.take (mp - 1)))
        (by
          apply List.ne_nil_of_length_pos
          simp only [List.length_drop]
          omega)
        rfl
        (by omega)
        (by omega)
        (by simp [hdone, Nat.succ_mul]; omega)
        (by
          simp only [List.length_drop]
          rw [hd2]
          rw [hd1] at h128
          rw [Nat.add_div_right _ (by omega)] at h128
          omega)
        (by
          simp only [List.length_drop]
          rw [hd2]
          rw [hd1] at hmaxF
          rw [Nat.add_div_right _ (by omega)] at hmaxF
          omega)]
      simp only [List.length_drop, hd1, hd2]
      rw [Nat.add_div_right _ (by omega)]
      have hge1 : 1 ≤ bs.length / mp :=
        (Nat.le_div_iff_mul_le (by omega)).mpr (by omega)
      rw [show bs.length / mp + 1 - 1 = (bs.length / mp - 1) + 1 by omega]
      rw [List.replicate_succ]
      simp only [List.cons_append, List.cons.injEq, true_and]
      rw [show done ++ (b :: bs.take (mp - 1)) ++ bs.drop (mp - 1) =
        done ++ (b :: (bs.take (mp - 1) ++ bs.drop (mp - 1))) by simp]
      rw [List.take_append_drop]
    · -- this is the last fragment
      have hmore : decide (mp < bs.length + 1) = false := by simp; omega
      simp only [hmore, FLAG_FIRST_FRAGMENT, FLAG_MORE_FRAGMENTS, if_false,
        if_true, eq_self_iff_true, Bool.false_eq_true, Nat.zero_add,
        Nat.add_zero]
      have htk : bs.take (mp - 1) = bs := List.take_of_length_le (by omega)
      have hdr : bs.drop (mp - 1) = [] := List.drop_eq_nil_of_le (by omega)
      rw [htk, hdr]
      have hnf : (bs.length + 1 + mp - 1) / mp = 1 :=
        Nat.div_eq_of_lt_le (by omega) (by omega)
      rw [hnf]
      simp only [fragmentGo, Reassembler.addAll]
      rw [add_fragment_step_last timeout maxP maxF now seq0 i source _ _
        ht hseq (by omega) (by omega) (by simp) (by omega)
        (lookupKey_range_map_none seq0 i _ _
          (fun t htl => seq_wrap_ne seq0 i t htl (by omega)))]
      have hlk : ∀ j, j < i + 1 →
          lookupKey ((seq0 + j) % 256)
            ((List.range i).map
              (fun t => ((seq0 + t) % 256, (done.drop (t * mp)).take mp))
              ++ [((seq0 + i) % 256, b :: bs)]) =
            some (((done ++ (b :: bs)).drop (j * mp)).take mp) := by
        intro j hj
        rcases Nat.lt_or_ge j i with hji | hji
        · rw [chunk_of_append mp j done (b :: bs) (by
            have := Nat.mul_le_mul_right mp (show j + 1 ≤ i by omega)
            rw [Nat.succ_mul] at this
            omega)]
          exact lookupKey_append_left _ _ _ _
            (lookupKey_range_map_get seq0 _ i (by omega) j hji)
        · have hj' : j = i := by omega
          rw [hj']
          rw [show ((done ++ (b :: bs)).drop (i * mp)).take mp = b :: bs by
            rw [← hdone, List.drop_left]
            exact List.take_of_length_le (by simp; omega)]
          exact lookupKey_append_right _ _ _
            (lookupKey_range_map_none seq0 i _ _
              (fun t htl => seq_wrap_ne seq0 i t htl (by omega)))
      have hasm : PendingPacket.assemble
          { fragments := (List.range i).map
              (fun t => ((seq0 + t) % 256, (done.drop (t * mp)).take mp))
              ++ [((seq0 + i) % 256, b :: bs)],
            first_sequence := seq0, last_sequence := some ((seq0 + i) % 256),
            started := now } = some (done ++ (b :: bs)) := by
        simp only [PendingPacket.assemble]
        rw [seq_wrap_diff seq0 i hseq (by omega)]
        have heval := assembleGo_eval _ seq0 (i + 1)
          (fun t => ((done ++ (b :: bs)).drop (t * mp)).take mp) hlk
          (i + 1) 0 (by omega)
        rw [show (seq0 + 0) % 256 = seq0 by omega] at heval
        rw [heval]
        congr 1
        rw [show (fun t => ((done ++ (b :: bs)).drop ((0 + t) * mp)).take mp) =
          (fun t => ((done ++ (b :: bs)).drop (t * mp)).take mp) by
            funext t
            rw [Nat.zero_add]]
        rw [chunks_flatten]
        apply List.take_of_length_le
        simp only [List.length_append, List.length_cons, hdone, Nat.succ_mul]
        omega
      simp only [hasm]
      simp

theorem addAll_fragment_in_order (mtu seq0 : Nat) (p : List Nat)
    (timeout maxP maxF now : Nat) (source : BleAddress)
    (frs : List Fragment) (f' : Fragmenter)
    (hmtu : 3 ≤ mtu) (hseq : seq0 < 256) (hp : p ≠ [])
    (ht : 1 ≤ timeout) (hmaxP : 1 ≤ maxP)
    (hfr : Fragmenter.fragment ⟨mtu, seq0⟩ p = Except.ok (frs, f'))
    (h128 : frs.length ≤ 128) (hmaxF : frs.length ≤ maxF) :
    ((Reassembler.with_limits timeout maxP maxF).addAll now source frs).1 =
      List.replicate (frs.length - 1) none ++ [some p] := by
  have hmp : 1 ≤ mtu - 2 := by omega
  rw [Fragmenter.fragment_ok _ p hp] at hfr
  simp only [Except.ok.injEq, Prod.mk.injEq] at hfr
  have hfrs : frs = fragmentGo (mtu - 2) seq0 true p := hfr.1.symm
  subst hfrs
  have hlen := fragmentGo_length (mtu - 2) hmp seq0 true p
  rw [hlen] at h128 hmaxF ⊢
  cases p with
  | nil => exact absurd rfl hp
  | cons b bs =>
    simp only [List.length_cons] at h128 hmaxF ⊢
    simp only [fragmentGo]
    rcases Nat.lt_or_ge (mtu - 2) (bs.length + 1) with hm | hm
    · -- packet needs several fragments
      have hmore : decide (mtu - 2 < bs.length + 1) = true := by simp [hm]
      simp only [List.length_cons, hmore, FLAG_FIRST_FRAGMENT,
        FLAG_MORE_FRAGMENTS, if_true, if_false, eq_self_iff_true,
        Bool.false_eq_true, Nat.zero_add, Nat.add_zero]
      simp only [Reassembler.addAll]
      rw [add_fragment_first_more timeout maxP maxF now seq0 source _ hmaxP]
      rw [show ([(seq0, b :: bs.take (mtu - 2 - 1))] : List (Nat × List Nat)) =
        (List.range 1).map (fun j => ((seq0 + j) % 256,
          (((b :: bs.take (mtu - 2 - 1)).drop (j * (mtu - 2))).take (mtu - 2)))) by
          simp [List.range_succ, Nat.mod_eq_of_lt hseq]
          omega]
      simp only [addAll_fragmentGo_inv (mtu - 2) hmp timeout maxP maxF now seq0
        source ht hseq ((seq0 + 1) % 256) false (bs.drop (mtu - 2 - 1)) 1
        (b :: bs.take (mtu - 2 - 1))
        (by
          apply List.ne_nil_of_length_pos
          simp only [List.length_drop]
          omega)
        rfl
        rfl
        (by omega)
        (by simp; omega)
        (by
          simp only [List.length_drop]
          rw [show bs.length - (mtu - 2 - 1) + (mtu - 2) - 1 = bs.length by omega]
          rw [show bs.length + 1 + (mtu - 2) - 1 = bs.length + (mtu - 2) by omega]
            at h128
          rw [Nat.add_div_right _ (by omega)] at h128
          omega)
        (by
          simp only [List.length_drop]
          rw [show bs.length - (mtu - 2 - 1) + (mtu - 2) - 1 = bs.length by omega]
          rw [show bs.length + 1 + (mtu - 2) - 1 = bs.length + (mtu - 2) by omega]
            at hmaxF
          rw [Nat.add_div_right _ (by omega)] at hmaxF
          omega)]
      simp only [List.length_drop]
      rw [show bs.length - (mtu - 2 - 1) + (mtu - 2) - 1 = bs.length by omega]
      rw [show bs.length + 1 + (mtu - 2) - 1 = bs.length + (mtu - 2) by omega]
      rw [Nat.add_div_right _ (by omega)]
      have hge1 : 1 ≤ bs.length / (mtu - 2) :=
        (Nat.le_div_iff_mul_le (by omega)).mpr (by omega)
      rw [show bs.length / (mtu - 2) + 1 - 1 =
        (bs.length / (mtu - 2) - 1) + 1 by omega]
      rw [List.replicate_succ]
      simp only [List.cons_append, List.cons.injEq, true_and]
      rw [List.take_append_drop]
    · -- single-fragment packet
      have hmore : decide (mtu - 2 < bs.length + 1) = false := by simp; omega
      simp only [List.length_cons, hmore, FLAG_FIRST_FRAGMENT,
        FLAG_MORE_FRAGMENTS, if_true, if_false, eq_self_iff_true,
        Bool.false_eq_true, Nat.zero_add, Nat.add_zero]
      have htk : bs.take (mtu - 2 - 1) = bs := List.take_of_length_le (by omega)
      have hdr : bs.drop (mtu - 2 - 1) = [] := List.drop_eq_nil_of_le (by omega)
      rw [htk, hdr]
      have hnf : (bs.length + 1 + (mtu - 2) - 1) / (mtu - 2) = 1 :=
        Nat.div_eq_of_lt_le (by omega) (by omega)
      rw [hnf]
      simp only [fragmentGo, Reassembler.addAll]
      rw [add_fragment_first_single]
      simp

/-- C2 counterexample: a two-fragment packet fed in reverse order is never
reassembled.  The non-first fragment arrives while no matching reassembly is
pending, so `add_fragment` drops it (`find_key_for_fragment` finds nothing);
the FIRST fragment then opens a reassembly that never completes.  Both calls
return `none`, refuting the any-permutation (and reverse-order) claim. -/
theorem fragment_reverse_order_counterexample :
    Fragmenter.fragment ⟨3, 0⟩ [1, 2] =
      Except.ok ([Fragment.mk 0 3 [1], Fragment.mk 1 0 [2]], ⟨3, 2⟩) ∧
    ((Reassembler.newDefault 100).addAll 0 [7]
      [Fragment.mk 1 0 [2], Fragment.mk 0 3 [1]]).1 = [none, none] := by
  constructor
  · rw [Fragmenter.fragment_ok _ _ (by decide)]
    norm_num [fragmentGo, Fragmenter.max_payload, HEADER_SIZE,
      FLAG_FIRST_FRAGMENT, FLAG_MORE_FRAGMENTS]
  · decide

/-- C2: in-order reassembly round-trip as the code actually satisfies it.
For every non-empty packet and `mtu ≥ 3`, feeding the fragments in their
production order (one fixed source, all within the reassembly timeout) to a
fresh reassembler yields `none` for every fragment except the last and
`Some packet` on the last, provided the fragment count fits the sequence
window (≤ 128) and the per-packet fragment limit; and a 500-byte packet at
MTU 20 produces exactly 28 fragments.  (Out-of-order arrival is not
supported by the code: see the reverse-order counterexample.) -/
theorem ble_fragment_reassembly_round_trip :
    (∀ (mtu seq0 : Nat) (p : List Nat) (timeout maxP maxF now : Nat)
        (source : BleAddress) (frs : List Fragment) (f' : Fragmenter),
      3 ≤ mtu → seq0 < 256 → p ≠ [] → 1 ≤ timeout → 1 ≤ maxP →
      Fragmenter.fragment ⟨mtu, seq0⟩ p = Except.ok (frs, f') →
      frs.length ≤ 128 → frs.length ≤ maxF →
      ((Reassembler.with_limits timeout maxP maxF).addAll now source frs).1 =
        List.replicate (frs.length - 1) none ++ [some p]) ∧
    (∀ (p : List Nat) (frs : List Fragment) (f' : Fragmenter),
      p.length = 500 →
      Fragmenter.fragment ⟨20, 0⟩ p = Except.ok (frs, f') →
      frs.length = 28) := by
  constructor
  · intro mtu seq0 p timeout maxP maxF now source frs f' hmtu hseq hp ht hmaxP
      hfr h128 hmaxF
    exact addAll_fragment_in_order mtu seq0 p timeout maxP maxF now source
      frs f' hmtu hseq hp ht hmaxP hfr h128 hmaxF
  · intro p frs f' hlen hfr
    have hp : p ≠ [] := by
      intro h
      rw [h] at hlen
      simp at hlen
    rw [Fragmenter.fragment_ok _ p hp] at hfr
    simp only [Except.ok.injEq, Prod.mk.injEq] at hfr
    have hfrs : frs = fragmentGo (20 - 2) 0 true p := hfr.1.symm
    subst hfrs
    rw [fragmentGo_length (20 - 2) (by norm_num) 0 true p, hlen]

/-- Witness: a 3-byte packet at MTU 20 (a single fragment with the FIRST
flag) feeds back to `some` of the packet, and the 500-byte fragment count
is 28. -/
theorem ble_fragment_reassembly_round_trip_witness :
    (((Reassembler.with_limits 100 8 32).addAll 0 [7]
        [Fragment.mk 0 1 [1, 2, 3]]).1 =
      List.replicate (([Fragment.mk 0 1 [1, 2, 3]] : List Fragment).length - 1)
        none ++ [some [1, 2, 3]]) ∧
    (fragmentGo (Fragmenter.mk 20 0).max_payload 0 true
      (List.replicate 500 0)).length = 28 := by
  have hfr : Fragmenter.fragment ⟨20, 0⟩ [1, 2, 3] =
      Except.ok ([Fragment.mk 0 1 [1, 2, 3]], ⟨20, 1⟩) := by
    rw [Fragmenter.fragment_ok ⟨20, 0⟩ [1, 2, 3] (by decide)]
    rw [show (Fragmenter.mk 20 0).max_payload = 18 from rfl]
    rw [fragmentGo_single 18 (by decide) 0 [1, 2, 3] (by decide) (by decide)]
    rfl
  constructor
  · exact ble_fragment_reassembly_round_trip.1 20 0 [1, 2, 3] 100 8 32 0 [7]
      [Fragment.mk 0 1 [1, 2, 3]] ⟨20, 1⟩ (by decide) (by decide) (by decide)
      (by decide) (by decide) hfr (by decide) (by decide)
  · exact ble_fragment_reassembly_round_trip.2 (List.replicate 500 0)
      (fragmentGo (Fragmenter.mk 20 0).max_payload 0 true (List.replicate 500 0))
      _ (by rw [List.length_replicate])
      (Fragmenter.fragment_ok ⟨20, 0⟩ (List.replicate 500 0) (by
        apply List.ne_nil_of_length_pos
        rw [List.length_replicate]
        omega))

